import Mathlib

/-!
Shallow embedding of `src/main.py` (MonieShop-Analyser).

The Python program parses comma-separated transaction lines into `Sale`
objects (`Sale.__init__`, `Sale.format_products`, `Sale.format_timestamp`),
folds each sale into five aggregate dictionaries
(`MonieshopAnalyser.update_metrics`) and derives a report
(`MonieshopAnalyser.print_metrics`).

Modelling conventions:
* Python exceptions (IndexError from `record[3]`, ValueError from
  `fromisoformat` / tuple unpacking / `int()` / `float()` /
  `max()` on an empty sequence, ZeroDivisionError) become `Option`:
  a raised exception is `none`.  An uncaught exception aborts the Python
  run before any report is produced, so states reached through a failing
  `update_metrics` call are never observed by `print_metrics`.
* Python `dict` (insertion ordered) becomes an association list
  `List (K × V)`: assignment to an existing key replaces the value in
  place, assignment to a fresh key appends at the end (`setk`).
* Python arbitrary-precision `int` becomes `Int`; the `float` sale
  amounts and averages become `ℚ` (on every value appearing in the
  verified scenarios the float arithmetic performed by the program is
  exact, so `ℚ` coincides with it).
* String scalpel work (`strip`, `split`, slicing `[1:-1]`) is modelled
  directly on the character list of the string, matching the semantics
  of the Python operations for single-character separators.
* `int(text)` / `float(text)` are modelled for optionally signed decimal
  literals with surrounding whitespace (`pyInt`, `pyFloat`); the exotic
  extra forms Python accepts (underscore separators, exponents, inf/nan)
  are not exercised by this program's data format.
* `datetime.fromisoformat` is modelled for `YYYY-MM-DD[*HH:MM:SS[.fff]]`
  with full calendar validation (`parseIso`), the format family produced
  by the transaction logs.
* The `transactions` list and the `folder_path` held by
  `MonieshopAnalyser` feed only file I/O and are not part of the five
  aggregates; they are omitted from the aggregation state.
-/

namespace MonieShop

/-- Calendar date extracted from a timestamp (`sale.timestamp.date()`). -/
structure Date where
  year : Nat
  month : Nat
  day : Nat
deriving DecidableEq, Repr

/-- Result of `datetime.fromisoformat`: a validated local date-time. -/
structure Timestamp where
  year : Nat
  month : Nat
  day : Nat
  hour : Nat
  minute : Nat
  second : Nat
deriving DecidableEq, Repr

/-- The `date()` component of a timestamp. -/
def Timestamp.date (t : Timestamp) : Date := ⟨t.year, t.month, t.day⟩

/-- Numeric value of a digit character. -/
def dval (c : Char) : Nat := c.toNat - 48

/-- Leap-year test used by Python's calendar validation. -/
def isLeap (y : Nat) : Bool := y % 4 == 0 && (y % 100 != 0 || y % 400 == 0)

/-- Number of days in a month, as validated by `datetime`. -/
def daysInMonth (y m : Nat) : Nat :=
  if m = 2 then (if isLeap y then 29 else 28)
  else if m = 4 ∨ m = 6 ∨ m = 9 ∨ m = 11 then 30
  else 31

/-- Range validation performed by the `datetime` constructor. -/
def mkTimestamp (y mo d h mi se : Nat) : Option Timestamp :=
  if 1 ≤ y ∧ y ≤ 9999 ∧ 1 ≤ mo ∧ mo ≤ 12 ∧ 1 ≤ d ∧ d ≤ daysInMonth y mo ∧
      h ≤ 23 ∧ mi ≤ 59 ∧ se ≤ 59 then
    some ⟨y, mo, d, h, mi, se⟩
  else none

/-- Optional fractional-seconds suffix accepted by `fromisoformat`. -/
def fracOK : List Char → Bool
  | [] => true
  | '.' :: ds => !ds.isEmpty && ds.all (·.isDigit)
  | _ => false

/-- Time-of-day part of an ISO string: empty means midnight, otherwise a
separator followed by `HH:MM:SS` with an optional fraction. -/
def parseTimePart : List Char → Option (Nat × Nat × Nat)
  | [] => some (0, 0, 0)
  | sep :: rest =>
    if sep = 'T' ∨ sep = ' ' then
      match rest with
      | h1 :: h2 :: ':' :: n1 :: n2 :: ':' :: s1 :: s2 :: frac =>
        if (h1.isDigit && h2.isDigit && n1.isDigit && n2.isDigit &&
            s1.isDigit && s2.isDigit && fracOK frac) = true then
          some (dval h1 * 10 + dval h2, dval n1 * 10 + dval n2,
                dval s1 * 10 + dval s2)
        else none
      | _ => none
    else none

/-- Model of `datetime.datetime.fromisoformat` (`Sale.format_timestamp`):
a `YYYY-MM-DD` date, optionally followed by a time-of-day, with full
calendar validation.  A `ValueError` is `none`. -/
def parseIso (s : String) : Option Timestamp :=
  match s.data with
  | y1 :: y2 :: y3 :: y4 :: '-' :: m1 :: m2 :: '-' :: d1 :: d2 :: rest =>
    if (y1.isDigit && y2.isDigit && y3.isDigit && y4.isDigit &&
        m1.isDigit && m2.isDigit && d1.isDigit && d2.isDigit) = true then
      match parseTimePart rest with
      | some (h, mi, se) =>
        mkTimestamp (dval y1 * 1000 + dval y2 * 100 + dval y3 * 10 + dval y4)
          (dval m1 * 10 + dval m2) (dval d1 * 10 + dval d2) h mi se
      | none => none
    else none
  | _ => none

/-- Python `text.split(sep)` for a single-character separator (also the
behaviour of splitting the empty string: one empty field). -/
def splitChar (c : Char) : List Char → List (List Char)
  | [] => [[]]
  | x :: xs =>
    if x = c then [] :: splitChar c xs
    else match splitChar c xs with
      | [] => [[x]]
      | f :: fs => (x :: f) :: fs

/-- Python whitespace test for `str.strip`. -/
def isSpace (c : Char) : Bool := c = ' ' ∨ c = '\t' ∨ c = '\n' ∨ c = '\r'

/-- Python `line.strip()`. -/
def pyStrip (l : List Char) : List Char :=
  ((l.dropWhile isSpace).reverse.dropWhile isSpace).reverse

/-- Python slicing `s[1:-1]`: drop the first and the last character,
whatever they are (no bracket validation happens in the source). -/
def sliceInner (l : List Char) : List Char := (l.drop 1).dropLast

/-- One parsed transaction record (the Python `Sale` object).  The staff
id, the product ids and the quantities are kept as the raw text tokens,
exactly as `Sale.__init__` stores them: quantity strings are converted
to integers only later, inside `update_metrics`. -/
structure Sale where
  staff : String
  timestamp : Timestamp
  products : List (String × String)
  amount : String
deriving DecidableEq, Repr

/-- Effectful map over a list in the `Option` monad: the first failure
aborts the whole traversal (a Python loop whose body can raise). -/
def mapO {α β : Type} (f : α → Option β) : List α → Option (List β)
  | [] => some []
  | x :: xs => (f x).bind fun y => (mapO f xs).map (y :: ·)

/-- Effectful fold over a list in the `Option` monad: the first failure
aborts the whole loop. -/
def foldO {σ α : Type} (f : σ → α → Option σ) : σ → List α → Option σ
  | st, [] => some st
  | st, x :: xs => (f st x).bind fun st' => foldO f st' xs

/-- Model of `Sale.format_products`: strip the first and last character of
the blob, split on `|`, and split every token on `:` into exactly two
parts (Python tuple unpacking raises ValueError otherwise). -/
def formatProducts (blob : List Char) : Option (List (String × String)) :=
  mapO (fun tok =>
    match splitChar ':' tok with
    | [pid, q] => some ((⟨pid⟩ : String), (⟨q⟩ : String))
    | _ => none) (splitChar '|' (sliceInner blob))

/-- Model of `Sale.__init__` applied to `line.strip().split(',')`
(`get_transactions`): the record must offer at least the four positional
fields `record[0] .. record[3]` (fewer raises IndexError); any further
fields are silently ignored.  The timestamp is parsed, the product blob
is decomposed, the staff id and the amount are kept as raw text. -/
def parseRecord (record : List (List Char)) : Option Sale :=
  match record with
  | staff :: ts :: prods :: amt :: _ =>
    (parseIso ⟨ts⟩).bind fun t =>
      (formatProducts prods).map fun ps =>
        { staff := (⟨staff⟩ : String), timestamp := t, products := ps,
          amount := (⟨amt⟩ : String) }
  | _ => none

/-- Parsing one raw line: `Sale(line.strip().split(','))`. -/
def parseLine (line : String) : Option Sale :=
  parseRecord (splitChar ',' (pyStrip line.data))

/-- Model of Python `int(text)` on the texts this program feeds it: an
optionally signed run of decimal digits, with surrounding whitespace
allowed.  A ValueError is `none`. -/
def pyInt (s : String) : Option Int :=
  let l := pyStrip s.data
  let (sgn, ds) : Int × List Char :=
    match l with
    | '-' :: r => (-1, r)
    | '+' :: r => (1, r)
    | r => (1, r)
  if ds ≠ [] ∧ ds.all (·.isDigit) then
    some (sgn * (ds.foldl (fun a c => a * 10 + dval c) 0 : Nat))
  else none

/-- Model of Python `float(text)` on the texts this program feeds it: an
optionally signed decimal literal `digits[.digits]` (at least one digit
overall), with surrounding whitespace allowed, read exactly as a
rational.  On all values arising in the verified scenarios the binary
floating-point arithmetic performed by the program is exact, so the
rational value agrees with the float. -/
def pyFloat (s : String) : Option ℚ :=
  let l := pyStrip s.data
  let (sgn, rest) : ℚ × List Char :=
    match l with
    | '-' :: r => (-1, r)
    | '+' :: r => (1, r)
    | r => (1, r)
  let ip := rest.takeWhile (·.isDigit)
  let tail := rest.dropWhile (·.isDigit)
  let ipv : ℚ := (ip.foldl (fun a c => a * 10 + dval c) 0 : Nat)
  match tail with
  | [] => if ip ≠ [] then some (sgn * ipv) else none
  | '.' :: fp =>
    if fp.all (·.isDigit) ∧ (ip ≠ [] ∨ fp ≠ []) then
      some (sgn * (ipv + ((fp.foldl (fun a c => a * 10 + dval c) 0 : Nat) : ℚ) /
        ((10 : ℚ) ^ fp.length)))
    else none
  | _ => none

/-! ### Insertion-ordered dictionaries

Python `dict` operations on association lists: lookup, assignment
(replace in place or append), and the get-or-default-then-accumulate
pattern used by `update_metrics`. -/

/-- Python `m[k]` / `m.get(k)`: the value stored for `k`. -/
def getv {K V : Type} [DecidableEq K] : List (K × V) → K → Option V
  | [], _ => none
  | (k', v) :: rest, k => if k = k' then some v else getv rest k

/-- Python `m.get(k, d)`. -/
def getD {K V : Type} [DecidableEq K] (m : List (K × V)) (k : K) (d : V) : V :=
  (getv m k).getD d

/-- Python `m[k] = v`: replace in place when the key is present,
otherwise append at the end (insertion order). -/
def setk {K V : Type} [DecidableEq K] : List (K × V) → K → V → List (K × V)
  | [], k, v => [(k, v)]
  | (k', v') :: rest, k, v =>
    if k = k' then (k, v) :: rest else (k', v') :: setk rest k v

/-- The accumulation pattern `m[k] = m.get(k, 0) + d`. -/
def bump {K V : Type} [DecidableEq K] [Zero V] [Add V]
    (m : List (K × V)) (k : K) (d : V) : List (K × V) :=
  setk m k (getD m k 0 + d)

/-- The nested pattern
`m[k] = m.get(k, dict()); m[k][k2] = m[k].get(k2, 0) + d`. -/
def bump2 (m : List (String × List (String × Int))) (mo st : String)
    (d : Int) : List (String × List (String × Int)) :=
  setk m mo (bump (getD m mo []) st d)

/-- The pattern `if k not in m: m[k] = []` followed by `m[k].append(v)`. -/
def appendv (m : List (Nat × List Int)) (k : Nat) (v : Int) :
    List (Nat × List Int) :=
  setk m k (getD m k [] ++ [v])

/-! ### The aggregation state -/

/-- The five aggregate dictionaries owned by `MonieshopAnalyser`. -/
structure AnalyserState where
  daily_volume : List (Date × Int)
  daily_value : List (Date × ℚ)
  product_volume : List (String × Int)
  monthly_staff_sales : List (String × List (String × Int))
  hourly_volumes : List (Nat × List Int)
deriving DecidableEq, Repr

/-- The state built by `MonieshopAnalyser.__init__`: all five empty. -/
def initState : AnalyserState := ⟨[], [], [], [], []⟩

/-- Fixed-width decimal rendering, most significant digit first, as done
by `strftime` with `%Y` (width 4) and `%m` (width 2). -/
def padDigits : Nat → Nat → List Char
  | 0, _ => []
  | w + 1, n => Char.ofNat (48 + n / 10 ^ w) :: padDigits w (n % 10 ^ w)

/-- The month key `sale.timestamp.strftime('%Y-%m')`. -/
def formatYM (y m : Nat) : String := ⟨padDigits 4 y ++ '-' :: padDigits 2 m⟩

/-- The month key of a sale. -/
def monthKey (s : Sale) : String := formatYM s.timestamp.year s.timestamp.month

/-- The integer conversion of every quantity string of a sale, paired
with its product id, in order (`int(product['quantity'])` for each
product; a ValueError is `none`). -/
def parsedProducts (s : Sale) : Option (List (String × Int)) :=
  mapO (fun p => (pyInt p.2).map (fun q => (p.1, q))) s.products

/-- The `sale_volume` computed by `update_metrics`:
`sum(int(product['quantity']) for product in sale.products)`. -/
def saleVolume (s : Sale) : Option Int :=
  (parsedProducts s).map (fun qs => (qs.map Prod.snd).sum)

/-- Model of `MonieshopAnalyser.update_metrics`: one atomic fold step.
The integer and float conversions it performs can raise (`none`); on
success every aggregate receives the sale's contribution.  The
conversions are checked up front here, whereas the Python statements
interleave them with the dictionary writes; the difference is
unobservable because an exception in `update_metrics` is never caught —
it aborts the run before any further fold step or report reads the
partially written state. -/
def updateMetrics (st : AnalyserState) (s : Sale) : Option AnalyserState :=
  (parsedProducts s).bind fun qs =>
    (pyFloat s.amount).bind fun amt =>
      some { daily_volume := bump st.daily_volume s.timestamp.date (qs.map Prod.snd).sum
             daily_value := bump st.daily_value s.timestamp.date amt
             product_volume := qs.foldl (fun m pq => bump m pq.1 pq.2) st.product_volume
             monthly_staff_sales :=
               bump2 st.monthly_staff_sales (monthKey s) s.staff (qs.map Prod.snd).sum
             hourly_volumes := appendv st.hourly_volumes s.timestamp.hour (qs.map Prod.snd).sum }

/-- Folding a list of already-parsed sales from a given state. -/
def foldFrom (st : AnalyserState) (l : List Sale) : Option AnalyserState :=
  foldO updateMetrics st l

/-- Folding a list of already-parsed sales from the initial state. -/
def foldSales (l : List Sale) : Option AnalyserState := foldFrom initState l

/-- The ingestion loop of `get_transactions`: parse every raw line and
fold it into the metrics, starting from the freshly initialised state. -/
def foldLines (lines : List String) : Option AnalyserState :=
  foldO (fun st line => (parseLine line).bind (updateMetrics st)) initState lines

/-- States actually produced by a run of the ingestion loop. -/
def Reach (st : AnalyserState) : Prop := ∃ lines, foldLines lines = some st

/-! ### The report (`print_metrics`) -/

/-- Python `max(items, key=lambda x: f x)`: the first element attaining
the maximum key, or a ValueError (`none`) on an empty sequence. -/
def pyMaxBy {α β : Type} [LinearOrder β] (f : α → β) : List α → Option α
  | [] => none
  | x :: xs => some (xs.foldl (fun acc y => if f acc < f y then y else acc) x)

/-- The `monthly_top_staff` loop: for every month, the staff entry of
maximum accumulated volume (a ValueError on an empty inner dict). -/
def monthlyTopStaff (mss : List (String × List (String × Int))) :
    Option (List (String × (String × Int))) :=
  mapO (fun p => (pyMaxBy Prod.snd p.2).map (fun t => (p.1, t))) mss

/-- The `avg_hourly_volume` loop: `sum(volumes)/len(volumes)` per hour (a
ZeroDivisionError, `none`, on an empty volume list). -/
def avgHourly (hv : List (Nat × List Int)) : Option (List (Nat × ℚ)) :=
  mapO (fun p =>
    if p.2.length = 0 then none
    else some (p.1, ((p.2.sum : ℚ) / (p.2.length : ℚ)))) hv

/-- Lexicographic comparison of character lists: the `≤` relation that
Python string sorting uses on the month keys. -/
def lexLe : List Char → List Char → Bool
  | [], _ => true
  | _ :: _, [] => false
  | a :: as, b :: bs => if a < b then true else if b < a then false else lexLe as bs

/-- Insertion of an element into a sorted list (stable: placed before
the first strictly later element it is `le` to). -/
def insertSorted {α : Type} (le : α → α → Bool) (x : α) : List α → List α
  | [] => [x]
  | y :: ys => if le x y then x :: y :: ys else y :: insertSorted le x ys

/-- Stable comparison sort, modelling Python `sorted`. -/
def insSort {α : Type} (le : α → α → Bool) : List α → List α
  | [] => []
  | x :: xs => insertSorted le x (insSort le xs)

/-- The report loop `sorted(monthly_top_staff.items(), key=lambda x: x[0])`:
sort the month entries by their `"YYYY-MM"` key string. -/
def sortByMonth (l : List (String × (String × Int))) :
    List (String × (String × Int)) :=
  insSort (fun a b => lexLe a.1.data b.1.data) l

/-- The structured data computed by `print_metrics` (presentation-layer
string formatting aside). -/
structure Metrics where
  highest_volume_day : Date × Int
  highest_value_day : Date × ℚ
  most_sold_product : String × Int
  monthly_top_staff : List (String × (String × Int))
  peak_hour : Nat × ℚ
deriving DecidableEq, Repr

/-- Model of `MonieshopAnalyser.print_metrics`, statement by statement,
threading the analyser state so that any mutation of the five aggregates
would be visible in the returned state.  Every `max` over an empty
sequence and every division by zero is a raised exception (`none`). -/
def printMetricsS (st : AnalyserState) : Option (Metrics × AnalyserState) :=
  (pyMaxBy Prod.snd st.daily_volume).bind fun hvd =>
    (pyMaxBy Prod.snd st.daily_value).bind fun hvl =>
      (pyMaxBy Prod.snd st.product_volume).bind fun msp =>
        (monthlyTopStaff st.monthly_staff_sales).bind fun mts =>
          (avgHourly st.hourly_volumes).bind fun avgs =>
            (pyMaxBy Prod.snd avgs).bind fun ph =>
              some ({ highest_volume_day := hvd
                      highest_value_day := hvl
                      most_sold_product := msp
                      monthly_top_staff := sortByMonth mts
                      peak_hour := ph }, st)

/-- The metrics derived by `print_metrics`. -/
def printMetricsOf (st : AnalyserState) : Option Metrics :=
  (printMetricsS st).map Prod.fst

/-- Nested lookup into the monthly staff aggregate: presence of the
month, and within it presence and value of the staff entry. -/
def lookup2 (m : List (String × List (String × Int))) (mo sf : String) :
    Option (Option Int) :=
  (getv m mo).map (fun inner => getv inner sf)

/-- Observational equality of two aggregation states, matching Python
`==` on the analyser's attributes: the four dictionary aggregates are
compared as key-value mappings, and the hourly lists are compared as
lists up to the multiset of their elements (the only feature of them the
report consumes is their sum and length). -/
def StateRel (s₁ s₂ : AnalyserState) : Prop :=
  (∀ k, getv s₁.daily_volume k = getv s₂.daily_volume k) ∧
  (∀ k, getv s₁.daily_value k = getv s₂.daily_value k) ∧
  (∀ k, getv s₁.product_volume k = getv s₂.product_volume k) ∧
  (∀ mo sf, lookup2 s₁.monthly_staff_sales mo sf = lookup2 s₂.monthly_staff_sales mo sf) ∧
  (∀ h, (getv s₁.hourly_volumes h).map Multiset.ofList =
    (getv s₂.hourly_volumes h).map Multiset.ofList)

/-- Lift of `StateRel` to possibly-failing folds: both fail, or both
succeed with observationally equal states. -/
def OptRel (o₁ o₂ : Option AnalyserState) : Prop :=
  (o₁ = none ∧ o₂ = none) ∨
  ∃ s₁ s₂, o₁ = some s₁ ∧ o₂ = some s₂ ∧ StateRel s₁ s₂

/-- Decoding of a `"YYYY-MM"` month key into the chronological index
`year * 100 + month`: strictly monotone in (year, month), so increasing
index order is exactly chronological order and never collides months of
different years. -/
def ymIdx (s : String) : Option Nat :=
  match s.data with
  | [y1, y2, y3, y4, dash, m1, m2] =>
    if dash = '-' ∧ (y1.isDigit && y2.isDigit && y3.isDigit && y4.isDigit &&
        m1.isDigit && m2.isDigit) = true then
      some ((dval y1 * 1000 + dval y2 * 100 + dval y3 * 10 + dval y4) * 100 +
        (dval m1 * 10 + dval m2))
    else none
  | _ => none

/-- Structural invariant maintained by the ingestion loop: month keys
are genuine `"YYYY-MM"` renderings of in-range year-months, outer month
keys are distinct (Python dict keys are unique), and every inner staff
dictionary and every hourly volume list is non-empty. -/
structure WF (st : AnalyserState) : Prop where
  mssKeys : ∀ p ∈ st.monthly_staff_sales,
    ∃ y m, y < 10000 ∧ 1 ≤ m ∧ m ≤ 12 ∧ p.1 = formatYM y m
  mssNodup : (st.monthly_staff_sales.map Prod.fst).Nodup
  mssInnerNe : ∀ p ∈ st.monthly_staff_sales, p.2 ≠ []
  hvNe : ∀ p ∈ st.hourly_volumes, p.2 ≠ []

/-- A concrete example sale (the parse of the second scenario line),
used to instantiate theorems with hypotheses. -/
def exSale : Sale :=
  { staff := "7", timestamp := ⟨2025, 1, 1, 9, 10, 0⟩,
    products := [("726107", "3")], amount := "500.00" }

/-- A second concrete example sale (the first scenario line with its
time moved into hour 9, the hour of `exSale`). -/
def exSaleA : Sale :=
  { staff := "4", timestamp := ⟨2025, 1, 1, 9, 58, 53⟩,
    products := [("726107", "5"), ("553776", "5")], amount := "2114.235" }

/-- The aggregation state after folding the two scenario lines. -/
def exState : AnalyserState :=
  { daily_volume := [(⟨2025, 1, 1⟩, 13)]
    daily_value := [(⟨2025, 1, 1⟩, Rat.divInt 2614235 1000)]
    product_volume := [("726107", 8), ("553776", 5)]
    monthly_staff_sales := [("2025-01", [("4", 10), ("7", 3)])]
    hourly_volumes := [(16, [10]), (9, [3])] }

/-- The aggregation state after folding just `exSale` into the initial
state. -/
def exState1 : AnalyserState :=
  { daily_volume := [(⟨2025, 1, 1⟩, 3)]
    daily_value := [(⟨2025, 1, 1⟩, (500 : ℚ))]
    product_volume := [("726107", 3)]
    monthly_staff_sales := [("2025-01", [("7", 3)])]
    hourly_volumes := [(9, [3])] }

/-- The state after folding `exSaleA` then `exSale`. -/
def exStatePerm1 : AnalyserState :=
  { daily_volume := [(⟨2025, 1, 1⟩, 13)]
    daily_value := [(⟨2025, 1, 1⟩, Rat.divInt 2614235 1000)]
    product_volume := [("726107", 8), ("553776", 5)]
    monthly_staff_sales := [("2025-01", [("4", 10), ("7", 3)])]
    hourly_volumes := [(9, [10, 3])] }

/-- The state after folding `exSale` then `exSaleA`: equal to
`exStatePerm1` as a collection of mappings, but with different insertion
orders and a different hour-9 list order. -/
def exStatePerm2 : AnalyserState :=
  { daily_volume := [(⟨2025, 1, 1⟩, 13)]
    daily_value := [(⟨2025, 1, 1⟩, Rat.divInt 2614235 1000)]
    product_volume := [("726107", 8), ("553776", 5)]
    monthly_staff_sales := [("2025-01", [("7", 3), ("4", 10)])]
    hourly_volumes := [(9, [3, 10])] }

/-- The report of `exState`. -/
def exMetrics : Metrics :=
  { highest_volume_day := (⟨2025, 1, 1⟩, 13)
    highest_value_day := (⟨2025, 1, 1⟩, Rat.divInt 2614235 1000)
    most_sold_product := ("726107", 8)
    monthly_top_staff := [("2025-01", ("4", 10))]
    peak_hour := (16, (10 : ℚ)) }

/-! ### Basic lemmas about the `Option`-monad helpers -/

theorem mapO_isSome {α β : Type} (f : α → Option β) (l : List α) :
    (mapO f l).isSome = true ↔ ∀ x ∈ l, (f x).isSome = true := by
  induction l with
  | nil => simp [mapO]
  | cons x xs ih =>
    cases hf : f x with
    | none => simp [mapO, hf]
    | some y =>
      cases hm : mapO f xs with
      | none => simp [mapO, hf, hm, Option.bind, ← ih]
      | some ys => simp [mapO, hf, hm, Option.bind, ← ih]

theorem mapO_eq_some_of_pointwise {α β : Type} (f : α → Option β) (g : α → β)
    (l : List α) (h : ∀ x ∈ l, f x = some (g x)) : mapO f l = some (l.map g) := by
  induction l with
  | nil => simp [mapO]
  | cons x xs ih =>
    have hx := h x (by simp)
    have ihs := ih (fun x hx => h x (by simp [hx]))
    simp [mapO, hx, ihs]

theorem mapO_forall₂ {α β : Type} {f : α → Option β} :
    ∀ {l : List α} {ys : List β}, mapO f l = some ys →
      List.Forall₂ (fun x y => f x = some y) l ys := by
  intro l
  induction l with
  | nil => intro ys h; simp [mapO] at h; subst h; exact .nil
  | cons x xs ih =>
    intro ys h
    cases hf : f x with
    | none => simp [mapO, hf] at h
    | some y =>
      cases hm : mapO f xs with
      | none => simp [mapO, hf, hm] at h
      | some zs =>
        simp [mapO, hf, hm, Option.bind] at h
        subst h
        exact .cons hf (ih hm)

/-! ### Claim theorems: the concrete scenario, the parser contract and
the empty dataset -/

unseal Rat.add Rat.mul Rat.inv in
/-- C1: ingesting exactly the two example lines and deriving the report
yields the metric values stated by the specification (2614.235 exactly;
the floating-point additions the program performs on these inputs are
exact, so the rational model coincides with them). -/
theorem scenario_two_lines_report :
    (foldLines ["4,2025-01-01T16:58:53,[726107:5|553776:5],2114.235",
                "7,2025-01-01T09:10:00,[726107:3],500.00"]).bind printMetricsOf =
      some { highest_volume_day := (⟨2025, 1, 1⟩, 13)
             highest_value_day := (⟨2025, 1, 1⟩, (2614235 : ℚ) / 1000)
             most_sold_product := ("726107", 8)
             monthly_top_staff := [("2025-01", ("4", 10))]
             peak_hour := (16, (10 : ℚ)) } := by
  decide

/-- C4: a report requested from an engine that never received a sale
fails (Python `max` raises ValueError on the first empty aggregate)
instead of returning degenerate metrics. -/
theorem empty_dataset_report_fails :
    foldLines [] = some initState ∧ printMetricsOf initState = none :=
  ⟨rfl, rfl⟩

/-- C2 (counterexample): a line missing the closing bracket of the
product list is parsed successfully into a partial `Sale` whose quantity
text is empty, instead of raising a parse error; likewise a non-numeric
quantity and a fifth comma-separated field are accepted by the parser. -/
theorem parse_counterexample :
    parseLine "4,2025-01-01T09:10:00,[726107:3,500.00" =
      some { staff := "4", timestamp := ⟨2025, 1, 1, 9, 10, 0⟩,
             products := [("726107", "")], amount := "500.00" } ∧
    (parseLine "4,2025-01-01T09:10:00,[726107:abc],500.00").isSome = true ∧
    (parseLine "4,2025-01-01T09:10:00,[726107:3],500.00,extra").isSome = true := by
  decide

/-- C2 (amended): parsing fails exactly when the stripped line has fewer
than four comma-separated fields, when the timestamp field is not a
valid ISO-8601 date-time, or when some product token does not split into
exactly two colon-separated parts.  The bracket wrapping is never
validated (the first and last characters are discarded positionally),
quantity texts are not converted at parse time, and fields beyond the
fourth are silently ignored. -/
theorem parse_isSome_iff (line : String) :
    (parseLine line).isSome = true ↔
      ∃ staff ts prods amt rest,
        splitChar ',' (pyStrip line.data) = staff :: ts :: prods :: amt :: rest ∧
        (parseIso ⟨ts⟩).isSome = true ∧
        ∀ tok ∈ splitChar '|' (sliceInner prods), (splitChar ':' tok).length = 2 := by
  unfold parseLine parseRecord
  rcases hr : splitChar ',' (pyStrip line.data) with _ | ⟨staff, _ | ⟨ts, _ | ⟨prods, _ | ⟨amt, rest⟩⟩⟩⟩ <;>
    simp only [hr, List.cons.injEq]
  · simp
  · simp
  · simp
  · simp
  · have hfp : (formatProducts prods).isSome = true ↔
        ∀ tok ∈ splitChar '|' (sliceInner prods), (splitChar ':' tok).length = 2 := by
      unfold formatProducts
      rw [mapO_isSome]
      constructor
      · intro h tok htok
        have := h tok htok
        rcases hsp : splitChar ':' tok with _ | ⟨a, _ | ⟨b, _ | ⟨c, l⟩⟩⟩ <;>
          simp [hsp] at this ⊢
      · intro h tok htok
        have := h tok htok
        rcases hsp : splitChar ':' tok with _ | ⟨a, _ | ⟨b, _ | ⟨c, l⟩⟩⟩ <;>
          simp [hsp] at this ⊢
    constructor
    · intro h
      cases hi : parseIso ⟨ts⟩ with
      | none => simp [hi, Option.bind] at h
      | some t =>
        cases hf : formatProducts prods with
        | none => simp [hi, hf, Option.bind] at h
        | some ps =>
          exact ⟨staff, ts, prods, amt, rest, ⟨rfl, rfl, rfl, rfl, rfl⟩,
            by simp [hi], hfp.mp (by simp [hf])⟩
    · rintro ⟨staff', ts', prods', amt', rest', ⟨h1, h2, h3, h4, h5⟩, hiso, htoks⟩
      subst h1; subst h2; subst h3; subst h4; subst h5
      obtain ⟨t, ht⟩ := Option.isSome_iff_exists.mp hiso
      obtain ⟨ps, hps⟩ := Option.isSome_iff_exists.mp (hfp.mpr htoks)
      simp [ht, hps, Option.bind]

/-- C3 (counterexample): a line whose quantity text is not numeric is
parsed into a `Sale` without error, and the fold step `update_metrics`
then fails on that parser-produced `Sale` (the numeric coercions happen
inside the engine, not in the parser). -/
theorem update_after_parse_fails :
    (parseLine "4,2025-01-01T09:10:00,[726107:abc],500.00").isSome = true ∧
    (parseLine "4,2025-01-01T09:10:00,[726107:abc],500.00").bind
      (updateMetrics initState) = none := by
  decide

/-- C3 (amended): the fold step never fails on a `Sale` whose quantity
texts all convert to integers and whose amount text converts to a float;
these conversions are performed by `update_metrics` itself, so only such
sales make the engine total. -/
theorem update_total_on_numeric_sales (st : AnalyserState) (s : Sale)
    (hq : (parsedProducts s).isSome = true)
    (ha : (pyFloat s.amount).isSome = true) :
    (updateMetrics st s).isSome = true := by
  obtain ⟨qs, hqs⟩ := Option.isSome_iff_exists.mp hq
  obtain ⟨a, has⟩ := Option.isSome_iff_exists.mp ha
  simp [updateMetrics, hqs, has, Option.bind]

/-- Witness for the amended C3 theorem at a concrete sale. -/
theorem update_total_on_numeric_sales_witness :
    (updateMetrics initState
      { staff := "7", timestamp := ⟨2025, 1, 1, 9, 10, 0⟩,
        products := [("726107", "3")], amount := "500.00" }).isSome = true :=
  update_total_on_numeric_sales _ _ (by decide) (by decide)

/-! ### Lemmas about the dictionary operations -/

theorem getv_setk {K V : Type} [DecidableEq K] (m : List (K × V)) (k : K)
    (v : V) (j : K) : getv (setk m k v) j = if j = k then some v else getv m j := by
  induction m with
  | nil => simp [setk, getv]
  | cons p rest ih =>
    obtain ⟨k', v'⟩ := p
    simp only [setk]
    by_cases hkk : k = k'
    · subst hkk
      rw [if_pos rfl]
      by_cases hj : j = k <;> simp [getv, hj]
    · rw [if_neg hkk]
      by_cases hj : j = k'
      · have hjk : ¬ j = k := by
          intro hh
          exact hkk (hh.symm.trans hj)
        have hk'k : ¬ k' = k := by
          intro hh
          exact hkk hh.symm
        simp [getv, hj, hjk, hk'k]
      · simp [getv, hj, ih]

theorem getv_bump {K V : Type} [DecidableEq K] [Zero V] [Add V]
    (m : List (K × V)) (k : K) (d : V) (j : K) :
    getv (bump m k d) j = if j = k then some (getD m k 0 + d) else getv m j := by
  simp [bump, getv_setk]

theorem getv_appendv (m : List (Nat × List Int)) (k : Nat) (v : Int) (j : Nat) :
    getv (appendv m k v) j = if j = k then some (getD m k [] ++ [v]) else getv m j := by
  simp [appendv, getv_setk]

theorem getv_bump2 (m : List (String × List (String × Int))) (mo sf : String)
    (d : Int) (mo' : String) :
    getv (bump2 m mo sf d) mo' =
      if mo' = mo then some (bump (getD m mo []) sf d) else getv m mo' := by
  simp [bump2, getv_setk]

theorem setk_ne_nil {K V : Type} [DecidableEq K] (m : List (K × V)) (k : K)
    (v : V) : setk m k v ≠ [] := by
  cases m with
  | nil => simp [setk]
  | cons p rest =>
    obtain ⟨k', v'⟩ := p
    by_cases h : k = k' <;> simp [setk, h]

theorem keys_setk {K V : Type} [DecidableEq K] (m : List (K × V)) (k : K)
    (v : V) : (setk m k v).map Prod.fst =
      if k ∈ m.map Prod.fst then m.map Prod.fst else m.map Prod.fst ++ [k] := by
  induction m with
  | nil => simp [setk]
  | cons p rest ih =>
    obtain ⟨k', v'⟩ := p
    by_cases h : k = k'
    · subst h; simp [setk]
    · by_cases hm : k ∈ rest.map Prod.fst <;> simp [setk, h, hm, ih, Ne.symm h]

theorem nodup_keys_setk {K V : Type} [DecidableEq K] (m : List (K × V)) (k : K)
    (v : V) (h : (m.map Prod.fst).Nodup) : ((setk m k v).map Prod.fst).Nodup := by
  rw [keys_setk]
  by_cases hm : k ∈ m.map Prod.fst
  · simp [hm, h]
  · simp [hm, List.nodup_append, h]

theorem mem_setk {K V : Type} [DecidableEq K] {m : List (K × V)} {k : K}
    {v : V} {p : K × V} (h : p ∈ setk m k v) : p = (k, v) ∨ p ∈ m := by
  induction m with
  | nil => simp [setk] at h; simp [h]
  | cons q rest ih =>
    obtain ⟨k', v'⟩ := q
    by_cases hk : k = k'
    · subst hk
      simp [setk] at h
      rcases h with h | h <;> simp [h]
    · simp [setk, hk] at h
      rcases h with h | h
      · simp [h]
      · rcases ih h with h' | h' <;> simp [h']

/-! ### The shape of one fold step -/

theorem updateMetrics_eq (st : AnalyserState) (s : Sale)
    (qs : List (String × Int)) (amt : ℚ)
    (hq : parsedProducts s = some qs) (ha : pyFloat s.amount = some amt) :
    updateMetrics st s = some
      { daily_volume := bump st.daily_volume s.timestamp.date (qs.map Prod.snd).sum
        daily_value := bump st.daily_value s.timestamp.date amt
        product_volume := qs.foldl (fun m pq => bump m pq.1 pq.2) st.product_volume
        monthly_staff_sales :=
          bump2 st.monthly_staff_sales (monthKey s) s.staff (qs.map Prod.snd).sum
        hourly_volumes :=
          appendv st.hourly_volumes s.timestamp.hour (qs.map Prod.snd).sum } := by
  simp [updateMetrics, hq, ha, Option.bind]

theorem updateMetrics_isSome (st : AnalyserState) (s : Sale) :
    (updateMetrics st s).isSome =
      ((parsedProducts s).isSome && (pyFloat s.amount).isSome) := by
  cases hq : parsedProducts s <;> cases ha : pyFloat s.amount <;>
    simp [updateMetrics, hq, ha, Option.bind]

/-! ### Claim theorem: the report is a pure derivation -/

/-- C8: `print_metrics` returns the aggregation state it was given,
unchanged — it never mutates any of the five aggregates — so it can be
called any number of times, and a second call on the resulting state
returns the identical report. -/
theorem report_pure (st : AnalyserState) (m : Metrics) (st' : AnalyserState)
    (h : printMetricsS st = some (m, st')) :
    st' = st ∧ printMetricsS st' = some (m, st') := by
  simp only [printMetricsS, Option.bind_eq_some, Option.some.injEq,
    Prod.mk.injEq] at h
  obtain ⟨hvd, h1, hvl, h2, msp, h3, mts, h4, avgs, h5, ph, h6, hm, hst⟩ := h
  subst hst
  subst hm
  refine ⟨rfl, ?_⟩
  simp [printMetricsS, h1, h2, h3, h4, h5, h6, Option.bind]

unseal Rat.add Rat.mul Rat.inv in
/-- Witness for the purity theorem at the concrete scenario state. -/
theorem report_pure_witness :
    exState = exState ∧ printMetricsS exState = some (exMetrics, exState) :=
  report_pure exState exMetrics exState (by decide)

/-! ### Claim theorem: one shared volume contribution per sale -/

/-- C9: for a sale whose fold step succeeds, the single value
`sum(quantity)` over its products (its `saleVolume`) is exactly the
amount added to `daily_volume` at the sale's date, the amount added to
`monthly_staff_sales` at the sale's month and staff, and the value
appended to `hourly_volumes` at the sale's hour. -/
theorem sale_volume_contribution (st : AnalyserState) (s : Sale)
    (st' : AnalyserState) (qs : List (String × Int))
    (hq : parsedProducts s = some qs)
    (hst : updateMetrics st s = some st') :
    saleVolume s = some (qs.map Prod.snd).sum ∧
    getD st'.daily_volume s.timestamp.date 0 =
      getD st.daily_volume s.timestamp.date 0 + (qs.map Prod.snd).sum ∧
    getD (getD st'.monthly_staff_sales (monthKey s) []) s.staff 0 =
      getD (getD st.monthly_staff_sales (monthKey s) []) s.staff 0 +
        (qs.map Prod.snd).sum ∧
    getv st'.hourly_volumes s.timestamp.hour =
      some (getD st.hourly_volumes s.timestamp.hour [] ++ [(qs.map Prod.snd).sum]) := by
  cases ha : pyFloat s.amount with
  | none => simp [updateMetrics, hq, ha, Option.bind] at hst
  | some amt =>
    rw [updateMetrics_eq st s qs amt hq ha] at hst
    injection hst with hst
    subst hst
    refine ⟨by simp [saleVolume, hq], ?_, ?_, ?_⟩
    · simp [getD, getv_bump]
    · simp [getD, getv_bump2, getv_bump]
    · simp [getv_appendv]

unseal Rat.add Rat.mul Rat.inv in
/-- Witness for the volume-contribution theorem at a concrete sale. -/
theorem sale_volume_contribution_witness :
    saleVolume exSale = some 3 ∧
    getD exState1.daily_volume exSale.timestamp.date 0 =
      getD initState.daily_volume exSale.timestamp.date 0 + 3 ∧
    getD (getD exState1.monthly_staff_sales (monthKey exSale) []) exSale.staff 0 =
      getD (getD initState.monthly_staff_sales (monthKey exSale) []) exSale.staff 0 + 3 ∧
    getv exState1.hourly_volumes exSale.timestamp.hour =
      some (getD initState.hourly_volumes exSale.timestamp.hour [] ++ [3]) :=
  sale_volume_contribution initState exSale exState1 [("726107", 3)]
    (by decide) (by decide)

/-! ### Claim theorem: monotone growth of the aggregates -/

theorem getv_bump_mono {K V : Type} [DecidableEq K] [Zero V] [Add V]
    [Preorder V] (m : List (K × V)) (k : K) (d : V) (hle : ∀ x : V, x ≤ x + d)
    (j : K) (v : V) (h : getv m j = some v) :
    ∃ v', getv (bump m k d) j = some v' ∧ v ≤ v' := by
  rw [getv_bump]
  by_cases hj : j = k
  · subst hj
    refine ⟨getD m j 0 + d, by simp, ?_⟩
    have hgd : getD m j 0 = v := by simp [getD, h]
    rw [hgd]
    exact hle v
  · exact ⟨v, by simp [hj, h], le_refl v⟩

theorem mapO_pyInt_nonneg (ps : List (String × String)) (qs : List (String × Int))
    (hqs : mapO (fun p => (pyInt p.2).map (fun q => (p.1, q))) ps = some qs)
    (hq : ∀ p ∈ ps, ∀ q, pyInt p.2 = some q → 0 ≤ q) :
    ∀ pq ∈ qs, (0 : Int) ≤ pq.2 := by
  induction ps generalizing qs with
  | nil =>
    simp [mapO] at hqs
    subst hqs
    simp
  | cons p rest ih =>
    cases hpi : pyInt p.2 with
    | none => simp [mapO, hpi] at hqs
    | some q =>
      cases hm : mapO (fun p => (pyInt p.2).map (fun q => (p.1, q))) rest with
      | none => simp [mapO, hpi, hm] at hqs
      | some zs =>
        simp [mapO, hpi, hm, Option.bind] at hqs
        subst hqs
        intro pq hpq
        rcases List.mem_cons.mp hpq with h' | h'
        · subst h'
          exact hq p (by simp) q hpi
        · exact ih zs hm (fun x hx => hq x (by simp [hx])) pq h'

theorem getv_foldl_bump_mono (qs : List (String × Int))
    (hqs : ∀ pq ∈ qs, 0 ≤ pq.2) (m : List (String × Int)) (j : String) (v : Int)
    (h : getv m j = some v) :
    ∃ v', getv (qs.foldl (fun m pq => bump m pq.1 pq.2) m) j = some v' ∧ v ≤ v' := by
  induction qs generalizing m v with
  | nil => exact ⟨v, h, le_refl v⟩
  | cons pq rest ih =>
    obtain ⟨v₁, hv₁, hle₁⟩ :=
      getv_bump_mono m pq.1 pq.2
        (fun x => le_add_of_nonneg_right (hqs pq (by simp))) j v h
    obtain ⟨v₂, hv₂, hle₂⟩ :=
      ih (fun q hq => hqs q (by simp [hq])) (bump m pq.1 pq.2) v₁ hv₁
    exact ⟨v₂, hv₂, le_trans hle₁ hle₂⟩

/-- C10: all five aggregates start empty, and a successful fold step for
a sale with non-negative quantities and a non-negative amount (the
data-model invariants of a `Sale`) never removes an entry and never
decreases an accumulated value: every present key stays present, every
numeric entry only grows, and every hourly list is only appended to. -/
theorem aggregates_monotone :
    (initState.daily_volume = [] ∧ initState.daily_value = [] ∧
      initState.product_volume = [] ∧ initState.monthly_staff_sales = [] ∧
      initState.hourly_volumes = []) ∧
    ∀ st s st', updateMetrics st s = some st' →
      (∀ p ∈ s.products, ∀ q, pyInt p.2 = some q → 0 ≤ q) →
      (∀ a, pyFloat s.amount = some a → 0 ≤ a) →
      (∀ k v, getv st.daily_volume k = some v →
        ∃ v', getv st'.daily_volume k = some v' ∧ v ≤ v') ∧
      (∀ k v, getv st.daily_value k = some v →
        ∃ v', getv st'.daily_value k = some v' ∧ v ≤ v') ∧
      (∀ k v, getv st.product_volume k = some v →
        ∃ v', getv st'.product_volume k = some v' ∧ v ≤ v') ∧
      (∀ mo inner, getv st.monthly_staff_sales mo = some inner →
        ∃ inner', getv st'.monthly_staff_sales mo = some inner' ∧
          ∀ sf v, getv inner sf = some v →
            ∃ v', getv inner' sf = some v' ∧ v ≤ v') ∧
      (∀ h l, getv st.hourly_volumes h = some l →
        ∃ t, getv st'.hourly_volumes h = some (l ++ t)) := by
  refine ⟨⟨rfl, rfl, rfl, rfl, rfl⟩, ?_⟩
  intro st s st' hst hq ha
  cases hqs : parsedProducts s with
  | none => simp [updateMetrics, hqs, Option.bind] at hst
  | some qs =>
    cases hamt : pyFloat s.amount with
    | none => simp [updateMetrics, hqs, hamt, Option.bind] at hst
    | some amt =>
      rw [updateMetrics_eq st s qs amt hqs hamt] at hst
      injection hst with hst
      subst hst
      have hqnn : ∀ pq ∈ qs, (0 : Int) ≤ pq.2 := mapO_pyInt_nonneg s.products qs hqs hq
      have hvol : (0 : Int) ≤ (qs.map Prod.snd).sum := by
        refine List.sum_nonneg ?_
        intro x hx
        obtain ⟨pq, hpq, hpe⟩ := List.mem_map.mp hx
        exact hpe ▸ hqnn pq hpq
      refine ⟨?_, ?_, ?_, ?_, ?_⟩
      · intro k v h
        exact getv_bump_mono st.daily_volume s.timestamp.date _
          (fun x => le_add_of_nonneg_right hvol) k v h
      · intro k v h
        exact getv_bump_mono st.daily_value s.timestamp.date amt
          (fun x => le_add_of_nonneg_right (ha amt hamt)) k v h
      · intro k v h
        exact getv_foldl_bump_mono qs hqnn st.product_volume k v h
      · intro mo inner h
        rw [getv_bump2]
        by_cases hmo : mo = monthKey s
        · rw [hmo] at h
          rw [if_pos hmo]
          have hid : getD st.monthly_staff_sales (monthKey s) [] = inner := by
            simp [getD, h]
          rw [hid]
          refine ⟨bump inner s.staff (qs.map Prod.snd).sum, rfl, ?_⟩
          intro sf v hv
          exact getv_bump_mono inner s.staff _
            (fun x => le_add_of_nonneg_right hvol) sf v hv
        · rw [if_neg hmo]
          exact ⟨inner, h, fun sf v hv => ⟨v, hv, le_refl v⟩⟩
      · intro hr l h
        rw [getv_appendv]
        by_cases hh : hr = s.timestamp.hour
        · rw [hh] at h
          rw [if_pos hh]
          have hid : getD st.hourly_volumes s.timestamp.hour [] = l := by
            simp [getD, h]
          rw [hid]
          exact ⟨[(qs.map Prod.snd).sum], rfl⟩
        · rw [if_neg hh]
          exact ⟨[], by simp [h]⟩

unseal Rat.add Rat.mul Rat.inv in
/-- Witness for the monotone-growth theorem: folding `exSale` into the
state reached after the first scenario line grows the daily volume entry
of 2025-01-01 from 10 to 13. -/
theorem aggregates_monotone_witness :
    ∃ v', getv exState.daily_volume ⟨2025, 1, 1⟩ = some v' ∧ (10 : Int) ≤ v' :=
  (aggregates_monotone.2
      { daily_volume := [(⟨2025, 1, 1⟩, 10)]
        daily_value := [(⟨2025, 1, 1⟩, Rat.divInt 2114235 1000)]
        product_volume := [("726107", 5), ("553776", 5)]
        monthly_staff_sales := [("2025-01", [("4", 10)])]
        hourly_volumes := [(16, [10])] }
      exSale exState (by decide) (by decide) (by decide)).1 ⟨2025, 1, 1⟩ 10 (by decide)

/-! ### Order independence: congruence and commutation of the fold step -/

theorem stateRel_refl (s : AnalyserState) : StateRel s s :=
  ⟨fun _ => rfl, fun _ => rfl, fun _ => rfl, fun _ _ => rfl, fun _ => rfl⟩

theorem stateRel_trans {a b c : AnalyserState} (h₁ : StateRel a b)
    (h₂ : StateRel b c) : StateRel a c :=
  ⟨fun k => (h₁.1 k).trans (h₂.1 k),
   fun k => (h₁.2.1 k).trans (h₂.2.1 k),
   fun k => (h₁.2.2.1 k).trans (h₂.2.2.1 k),
   fun mo sf => (h₁.2.2.2.1 mo sf).trans (h₂.2.2.2.1 mo sf),
   fun h => (h₁.2.2.2.2 h).trans (h₂.2.2.2.2 h)⟩

theorem optRel_trans {o₁ o₂ o₃ : Option AnalyserState} (h₁ : OptRel o₁ o₂)
    (h₂ : OptRel o₂ o₃) : OptRel o₁ o₃ := by
  rcases h₁ with ⟨hn₁, hn₂⟩ | ⟨s₁, s₂, he₁, he₂, hr⟩
  · rcases h₂ with ⟨hn₂', hn₃⟩ | ⟨t₂, t₃, he₂', he₃, hr'⟩
    · exact Or.inl ⟨hn₁, hn₃⟩
    · rw [hn₂] at he₂'
      exact absurd he₂' (by simp)
  · rcases h₂ with ⟨hn₂', hn₃⟩ | ⟨t₂, t₃, he₂', he₃, hr'⟩
    · rw [hn₂'] at he₂
      exact absurd he₂ (by simp)
    · rw [he₂'] at he₂
      injection he₂ with he
      exact Or.inr ⟨s₁, t₃, he₁, he₃, stateRel_trans hr (he ▸ hr')⟩

theorem getv_bump_cong {K V : Type} [DecidableEq K] [Zero V] [Add V]
    {m₁ m₂ : List (K × V)} (h : ∀ j, getv m₁ j = getv m₂ j) (k : K) (d : V) :
    ∀ j, getv (bump m₁ k d) j = getv (bump m₂ k d) j := by
  intro j
  simp [getv_bump, getD, h k, h j]

theorem getv_foldl_bump_cong (qs : List (String × Int))
    {m₁ m₂ : List (String × Int)} (h : ∀ j, getv m₁ j = getv m₂ j) :
    ∀ j, getv (qs.foldl (fun m pq => bump m pq.1 pq.2) m₁) j =
      getv (qs.foldl (fun m pq => bump m pq.1 pq.2) m₂) j := by
  induction qs generalizing m₁ m₂ with
  | nil => exact h
  | cons pq rest ih => exact ih (getv_bump_cong h pq.1 pq.2)

theorem getv_bump_swap {K V : Type} [DecidableEq K] [Zero V] [Add V]
    (hrc : ∀ x a b : V, x + a + b = x + b + a)
    (m : List (K × V)) (k : K) (d : V) (k' : K) (d' : V) :
    ∀ j, getv (bump (bump m k d) k' d') j = getv (bump (bump m k' d') k d) j := by
  intro j
  rcases eq_or_ne k k' with hkk | hkk
  · subst hkk
    by_cases hj : j = k
    · simp only [getv_bump, getD, hj, if_pos rfl]
      exact congrArg some (hrc ((getv m k).getD 0) d d')
    · simp [getv_bump, getD, hj]
  · have hkk' : ¬ k' = k := fun hh => hkk hh.symm
    by_cases h1 : j = k <;> by_cases h2 : j = k' <;>
      simp [getv_bump, getD, h1, h2, hkk, hkk']

theorem getv_foldl_bump_push (qs : List (String × Int))
    (m : List (String × Int)) (k : String) (d : Int) :
    ∀ j, getv (qs.foldl (fun m pq => bump m pq.1 pq.2) (bump m k d)) j =
      getv (bump (qs.foldl (fun m pq => bump m pq.1 pq.2) m) k d) j := by
  induction qs generalizing m with
  | nil => intro j; rfl
  | cons pq rest ih =>
    intro j
    have h1 : ∀ j, getv (rest.foldl (fun m pq => bump m pq.1 pq.2)
        (bump (bump m k d) pq.1 pq.2)) j =
      getv (rest.foldl (fun m pq => bump m pq.1 pq.2)
        (bump (bump m pq.1 pq.2) k d)) j :=
      getv_foldl_bump_cong rest
        (getv_bump_swap (fun x a b => add_right_comm x a b) m k d pq.1 pq.2)
    calc getv (rest.foldl (fun m pq => bump m pq.1 pq.2)
          (bump (bump m k d) pq.1 pq.2)) j
        = getv (rest.foldl (fun m pq => bump m pq.1 pq.2)
            (bump (bump m pq.1 pq.2) k d)) j := h1 j
      _ = getv (bump (rest.foldl (fun m pq => bump m pq.1 pq.2)
            (bump m pq.1 pq.2)) k d) j := ih (bump m pq.1 pq.2) j

theorem getv_foldl_foldl_swap (qsA qsB : List (String × Int))
    (m : List (String × Int)) :
    ∀ j, getv (qsB.foldl (fun m pq => bump m pq.1 pq.2)
        (qsA.foldl (fun m pq => bump m pq.1 pq.2) m)) j =
      getv (qsA.foldl (fun m pq => bump m pq.1 pq.2)
        (qsB.foldl (fun m pq => bump m pq.1 pq.2) m)) j := by
  induction qsA generalizing m with
  | nil => intro j; rfl
  | cons pq rest ih =>
    intro j
    calc getv (qsB.foldl (fun m pq => bump m pq.1 pq.2)
          (rest.foldl (fun m pq => bump m pq.1 pq.2) (bump m pq.1 pq.2))) j
        = getv (rest.foldl (fun m pq => bump m pq.1 pq.2)
            (qsB.foldl (fun m pq => bump m pq.1 pq.2) (bump m pq.1 pq.2))) j :=
          ih (bump m pq.1 pq.2) j
      _ = getv (rest.foldl (fun m pq => bump m pq.1 pq.2)
            (bump (qsB.foldl (fun m pq => bump m pq.1 pq.2) m) pq.1 pq.2)) j :=
          getv_foldl_bump_cong rest
            (getv_foldl_bump_push qsB m pq.1 pq.2) j

theorem lookup2_bump2 (m : List (String × List (String × Int)))
    (mo stf : String) (d : Int) (mo' sf : String) :
    lookup2 (bump2 m mo stf d) mo' sf =
      if mo' = mo then some (getv (bump (getD m mo []) stf d) sf)
      else lookup2 m mo' sf := by
  unfold lookup2 bump2
  rw [getv_setk]
  by_cases h : mo' = mo <;> simp [h]

theorem getD_bump2 (m : List (String × List (String × Int)))
    (mo stf : String) (d : Int) (mo' : String) :
    getD (bump2 m mo stf d) mo' [] =
      if mo' = mo then bump (getD m mo []) stf d else getD m mo' [] := by
  unfold getD bump2
  rw [getv_setk]
  by_cases h : mo' = mo <;> simp [h, getD]

theorem lookup2_inner_cong {m₁ m₂ : List (String × List (String × Int))}
    {mo : String} (h : ∀ sf, lookup2 m₁ mo sf = lookup2 m₂ mo sf) :
    ∀ sf, getv (getD m₁ mo []) sf = getv (getD m₂ mo []) sf := by
  intro sf
  have hs := h sf
  unfold lookup2 at hs
  cases h1 : getv m₁ mo <;> cases h2 : getv m₂ mo <;> rw [h1, h2] at hs <;>
    simp at hs <;> simp [getD, h1, h2, hs]

theorem lookup2_bump2_cong {m₁ m₂ : List (String × List (String × Int))}
    (h : ∀ mo sf, lookup2 m₁ mo sf = lookup2 m₂ mo sf) (mo stf : String)
    (d : Int) : ∀ mo' sf,
      lookup2 (bump2 m₁ mo stf d) mo' sf = lookup2 (bump2 m₂ mo stf d) mo' sf := by
  intro mo' sf
  rw [lookup2_bump2, lookup2_bump2]
  by_cases hm : mo' = mo
  · rw [if_pos hm, if_pos hm]
    exact congrArg some
      (getv_bump_cong (lookup2_inner_cong (fun sf => h mo sf)) stf d sf)
  · rw [if_neg hm, if_neg hm]
    exact h mo' sf

theorem lookup2_bump2_swap (m : List (String × List (String × Int)))
    (mo1 s1 : String) (d1 : Int) (mo2 s2 : String) (d2 : Int) :
    ∀ mo' sf, lookup2 (bump2 (bump2 m mo1 s1 d1) mo2 s2 d2) mo' sf =
      lookup2 (bump2 (bump2 m mo2 s2 d2) mo1 s1 d1) mo' sf := by
  intro mo' sf
  rcases eq_or_ne mo1 mo2 with hm | hm
  · subst hm
    by_cases h : mo' = mo1
    · simp only [lookup2_bump2, getD_bump2, h, if_pos rfl]
      exact congrArg some
        (getv_bump_swap (fun x a b => add_right_comm x a b)
          (getD m mo1 []) s1 d1 s2 d2 sf)
    · simp [lookup2_bump2, h]
  · have hm' : ¬ mo2 = mo1 := fun hh => hm hh.symm
    by_cases h1 : mo' = mo1 <;> by_cases h2 : mo' = mo2
    · exact absurd (h1.symm.trans h2) hm
    · simp [lookup2_bump2, getD_bump2, h1, h2, hm, hm']
    · simp [lookup2_bump2, getD_bump2, h1, h2, hm, hm']
    · simp [lookup2_bump2, h1, h2]

theorem getD_appendv (m : List (Nat × List Int)) (k : Nat) (v : Int) (j : Nat) :
    getD (appendv m k v) j [] =
      if j = k then getD m k [] ++ [v] else getD m j [] := by
  unfold getD
  rw [getv_appendv]
  by_cases h : j = k <;> simp [h, getD]

theorem appendv_cong {m₁ m₂ : List (Nat × List Int)}
    (h : ∀ j, (getv m₁ j).map Multiset.ofList = (getv m₂ j).map Multiset.ofList)
    (k : Nat) (v : Int) :
    ∀ j, (getv (appendv m₁ k v) j).map Multiset.ofList =
      (getv (appendv m₂ k v) j).map Multiset.ofList := by
  intro j
  rw [getv_appendv, getv_appendv]
  by_cases hj : j = k
  · rw [if_pos hj, if_pos hj]
    have hk := h k
    cases h1 : getv m₁ k with
    | none =>
      cases h2 : getv m₂ k with
      | none => simp [getD, h1, h2]
      | some l₂ =>
        rw [h1, h2] at hk
        simp at hk
    | some l₁ =>
      cases h2 : getv m₂ k with
      | none =>
        rw [h1, h2] at hk
        simp at hk
      | some l₂ =>
        have hk' : Multiset.ofList l₁ = Multiset.ofList l₂ := by
          rw [h1, h2] at hk
          exact Option.some.inj hk
        have hg1 : getD m₁ k [] = l₁ := by simp [getD, h1]
        have hg2 : getD m₂ k [] = l₂ := by simp [getD, h2]
        rw [hg1, hg2]
        exact congrArg some
          (Multiset.coe_eq_coe.mpr ((Multiset.coe_eq_coe.mp hk').append_right [v]))
  · rw [if_neg hj, if_neg hj]
    exact h j

theorem appendv_swap (m : List (Nat × List Int)) (k1 : Nat) (v1 : Int)
    (k2 : Nat) (v2 : Int) :
    ∀ j, (getv (appendv (appendv m k1 v1) k2 v2) j).map Multiset.ofList =
      (getv (appendv (appendv m k2 v2) k1 v1) j).map Multiset.ofList := by
  intro j
  rcases eq_or_ne k1 k2 with hk | hk
  · subst hk
    by_cases hj : j = k1
    · simp only [getv_appendv, getD_appendv, hj, eq_self_iff_true, if_true]
      refine congrArg some (Multiset.coe_eq_coe.mpr ?_)
      have h1 : (getD m k1 [] ++ [v1]) ++ [v2] = getD m k1 [] ++ [v1, v2] := by
        simp
      have h2 : (getD m k1 [] ++ [v2]) ++ [v1] = getD m k1 [] ++ [v2, v1] := by
        simp
      rw [h1, h2]
      exact List.Perm.append_left _ (List.Perm.swap v2 v1 [])
    · simp [getv_appendv, hj]
  · have hk' : ¬ k2 = k1 := fun hh => hk hh.symm
    by_cases h1 : j = k1 <;> by_cases h2 : j = k2
    · exact absurd (h1.symm.trans h2) hk
    · simp [getv_appendv, getD_appendv, h1, h2, hk, hk']
    · simp [getv_appendv, getD_appendv, h1, h2, hk, hk']
    · simp [getv_appendv, h1, h2]

theorem updateMetrics_cong {s₁ s₂ : AnalyserState} (h : StateRel s₁ s₂)
    (x : Sale) : OptRel (updateMetrics s₁ x) (updateMetrics s₂ x) := by
  obtain ⟨h1, h2, h3, h4, h5⟩ := h
  cases hq : parsedProducts x with
  | none =>
    exact Or.inl ⟨by simp [updateMetrics, hq, Option.bind],
      by simp [updateMetrics, hq, Option.bind]⟩
  | some qs =>
    cases ha : pyFloat x.amount with
    | none =>
      exact Or.inl ⟨by simp [updateMetrics, hq, ha, Option.bind],
        by simp [updateMetrics, hq, ha, Option.bind]⟩
    | some amt =>
      refine Or.inr ⟨_, _, updateMetrics_eq s₁ x qs amt hq ha,
        updateMetrics_eq s₂ x qs amt hq ha, ?_, ?_, ?_, ?_, ?_⟩
      · exact getv_bump_cong h1 _ _
      · exact getv_bump_cong h2 _ _
      · exact getv_foldl_bump_cong qs h3
      · exact lookup2_bump2_cong h4 _ _ _
      · exact appendv_cong h5 _ _

theorem updateMetrics_swap (st : AnalyserState) (a b : Sale) :
    OptRel ((updateMetrics st a).bind fun t => updateMetrics t b)
      ((updateMetrics st b).bind fun t => updateMetrics t a) := by
  cases hqa : parsedProducts a with
  | none =>
    have hna : ∀ t, updateMetrics t a = none := fun t => by
      simp [updateMetrics, hqa, Option.bind]
    refine Or.inl ⟨by simp [hna st, Option.bind], ?_⟩
    cases hb : updateMetrics st b <;> simp [hb, hna, Option.bind]
  | some qsa =>
    cases haa : pyFloat a.amount with
    | none =>
      have hna : ∀ t, updateMetrics t a = none := fun t => by
        simp [updateMetrics, hqa, haa, Option.bind]
      refine Or.inl ⟨by simp [hna st, Option.bind], ?_⟩
      cases hb : updateMetrics st b <;> simp [hb, hna, Option.bind]
    | some amta =>
      cases hqb : parsedProducts b with
      | none =>
        have hnb : ∀ t, updateMetrics t b = none := fun t => by
          simp [updateMetrics, hqb, Option.bind]
        refine Or.inl ⟨?_, by simp [hnb st, Option.bind]⟩
        cases hca : updateMetrics st a <;> simp [hca, hnb, Option.bind]
      | some qsb =>
        cases hab : pyFloat b.amount with
        | none =>
          have hnb : ∀ t, updateMetrics t b = none := fun t => by
            simp [updateMetrics, hqb, hab, Option.bind]
          refine Or.inl ⟨?_, by simp [hnb st, Option.bind]⟩
          cases hca : updateMetrics st a <;> simp [hca, hnb, Option.bind]
        | some amtb =>
          rw [updateMetrics_eq st a qsa amta hqa haa,
            updateMetrics_eq st b qsb amtb hqb hab]
          simp only [Option.bind]
          rw [updateMetrics_eq _ b qsb amtb hqb hab,
            updateMetrics_eq _ a qsa amta hqa haa]
          refine Or.inr ⟨_, _, rfl, rfl, ?_, ?_, ?_, ?_, ?_⟩
          · exact getv_bump_swap (fun x a b => add_right_comm x a b)
              st.daily_volume _ _ _ _
          · exact getv_bump_swap (fun x a b => add_right_comm x a b)
              st.daily_value _ _ _ _
          · exact getv_foldl_foldl_swap qsa qsb st.product_volume
          · exact lookup2_bump2_swap st.monthly_staff_sales _ _ _ _ _ _
          · exact appendv_swap st.hourly_volumes _ _ _ _

theorem foldFrom_cong {s₁ s₂ : AnalyserState} (h : StateRel s₁ s₂)
    (l : List Sale) : OptRel (foldFrom s₁ l) (foldFrom s₂ l) := by
  induction l generalizing s₁ s₂ with
  | nil => exact Or.inr ⟨s₁, s₂, rfl, rfl, h⟩
  | cons x xs ih =>
    rcases updateMetrics_cong h x with ⟨hn₁, hn₂⟩ | ⟨t₁, t₂, he₁, he₂, ht⟩
    · exact Or.inl ⟨by simp [foldFrom, foldO, hn₁, Option.bind],
        by simp [foldFrom, foldO, hn₂, Option.bind]⟩
    · simpa [foldFrom, foldO, he₁, he₂, Option.bind] using ih ht

theorem foldFrom_two (st : AnalyserState) (x y : Sale) (l : List Sale) :
    foldFrom st (x :: y :: l) =
      ((updateMetrics st x).bind fun t => updateMetrics t y).bind
        fun u => foldFrom u l := by
  cases h : updateMetrics st x <;> simp [foldFrom, foldO, h, Option.bind]

theorem optRel_bind_fold {o₁ o₂ : Option AnalyserState} (h : OptRel o₁ o₂)
    (l : List Sale) :
    OptRel (o₁.bind fun t => foldFrom t l) (o₂.bind fun t => foldFrom t l) := by
  rcases h with ⟨hn₁, hn₂⟩ | ⟨t₁, t₂, he₁, he₂, ht⟩
  · exact Or.inl ⟨by simp [hn₁, Option.bind], by simp [hn₂, Option.bind]⟩
  · simpa [he₁, he₂, Option.bind] using foldFrom_cong ht l

theorem foldFrom_perm {l₁ l₂ : List Sale} (hp : l₁.Perm l₂) :
    ∀ st, OptRel (foldFrom st l₁) (foldFrom st l₂) := by
  induction hp with
  | nil => exact fun st => Or.inr ⟨st, st, rfl, rfl, stateRel_refl st⟩
  | cons x hp ih =>
    intro st
    cases hu : updateMetrics st x with
    | none =>
      exact Or.inl ⟨by simp [foldFrom, foldO, hu, Option.bind],
        by simp [foldFrom, foldO, hu, Option.bind]⟩
    | some t => simpa [foldFrom, foldO, hu, Option.bind] using ih t
  | swap x y l =>
    intro st
    rw [foldFrom_two, foldFrom_two]
    exact optRel_bind_fold (updateMetrics_swap st y x) l
  | trans h₁ h₂ ih₁ ih₂ => exact fun st => optRel_trans (ih₁ st) (ih₂ st)

/-! ### Claim theorems: order independence -/

unseal Rat.add Rat.mul Rat.inv in
/-- C7 (counterexample): two well-formed sales in the same hour, folded
in the two possible orders, do not yield identical `hourly_volumes`: the
hour-9 list is `[10, 3]` one way and `[3, 10]` the other, so the final
aggregates are not identical as stated. -/
theorem fold_perm_counterexample :
    List.Perm [exSaleA, exSale] [exSale, exSaleA] ∧
    (foldSales [exSaleA, exSale]).map (fun st => getv st.hourly_volumes 9) ≠
      (foldSales [exSale, exSaleA]).map (fun st => getv st.hourly_volumes 9) := by
  constructor
  · exact List.Perm.swap exSale exSaleA []
  · decide

/-- C7 (amended): folding a set of sales in any two permuted orders
yields observationally equal final aggregates — equal as key-value
mappings for `daily_volume`, `daily_value`, `product_volume` and the
nested `monthly_staff_sales`, and equal up to multiset (order of
appends) for every `hourly_volumes` list, which is all the report
consumes of them. -/
theorem fold_perm_equiv (l₁ l₂ : List Sale) (hp : l₁.Perm l₂)
    (st₁ st₂ : AnalyserState) (h₁ : foldSales l₁ = some st₁)
    (h₂ : foldSales l₂ = some st₂) : StateRel st₁ st₂ := by
  have h₁' : foldFrom initState l₁ = some st₁ := h₁
  have h₂' : foldFrom initState l₂ = some st₂ := h₂
  rcases foldFrom_perm hp initState with ⟨hn₁, hn₂⟩ | ⟨t₁, t₂, he₁, he₂, ht⟩
  · rw [hn₁] at h₁'
    exact absurd h₁' (by simp)
  · rw [he₁] at h₁'
    rw [he₂] at h₂'
    injection h₁' with h₁'
    injection h₂' with h₂'
    exact h₁' ▸ h₂' ▸ ht

unseal Rat.add Rat.mul Rat.inv in
/-- Witness for the amended order-independence theorem on the two
concrete same-hour sales. -/
theorem fold_perm_equiv_witness : StateRel exStatePerm1 exStatePerm2 :=
  fold_perm_equiv [exSaleA, exSale] [exSale, exSaleA]
    (List.Perm.swap exSale exSaleA []) exStatePerm1 exStatePerm2
    (by decide) (by decide)

/-! ### The behaviour of the Python `max` with a key function -/

theorem pyMax_foldl_mem {α β : Type} [LinearOrder β] (f : α → β) :
    ∀ (xs : List α) (acc : α),
      xs.foldl (fun acc y => if f acc < f y then y else acc) acc = acc ∨
      xs.foldl (fun acc y => if f acc < f y then y else acc) acc ∈ xs := by
  intro xs
  induction xs with
  | nil => exact fun acc => Or.inl rfl
  | cons y ys ih =>
    intro acc
    rcases ih (if f acc < f y then y else acc) with h | h
    · by_cases hy : f acc < f y
      · right
        rw [List.foldl_cons, h, if_pos hy]
        simp
      · left
        rw [List.foldl_cons, h, if_neg hy]
    · right
      rw [List.foldl_cons]
      exact List.mem_cons_of_mem y h

theorem pyMax_foldl_le {α β : Type} [LinearOrder β] (f : α → β) :
    ∀ (xs : List α) (acc : α),
      f acc ≤ f (xs.foldl (fun acc y => if f acc < f y then y else acc) acc) ∧
      ∀ x ∈ xs, f x ≤ f (xs.foldl (fun acc y => if f acc < f y then y else acc) acc) := by
  intro xs
  induction xs with
  | nil => exact fun acc => ⟨le_refl _, by simp⟩
  | cons y ys ih =>
    intro acc
    obtain ⟨h1, h2⟩ := ih (if f acc < f y then y else acc)
    have hacc : f acc ≤ f (if f acc < f y then y else acc) := by
      by_cases hy : f acc < f y
      · rw [if_pos hy]; exact le_of_lt hy
      · rw [if_neg hy]
    have hy' : f y ≤ f (if f acc < f y then y else acc) := by
      by_cases hy : f acc < f y
      · rw [if_pos hy]
      · rw [if_neg hy]; exact le_of_not_lt hy
    refine ⟨le_trans hacc h1, ?_⟩
    intro x hx
    rcases List.mem_cons.mp hx with rfl | hx
    · exact le_trans hy' h1
    · exact h2 x hx

theorem pyMaxBy_spec {α β : Type} [LinearOrder β] (f : α → β) (l : List α)
    (a : α) (h : pyMaxBy f l = some a) : a ∈ l ∧ ∀ x ∈ l, f x ≤ f a := by
  cases l with
  | nil => simp [pyMaxBy] at h
  | cons x xs =>
    simp only [pyMaxBy, Option.some.injEq] at h
    subst h
    constructor
    · rcases pyMax_foldl_mem f xs x with h | h
      · rw [h]; simp
      · exact List.mem_cons_of_mem x h
    · intro z hz
      obtain ⟨h1, h2⟩ := pyMax_foldl_le f xs x
      rcases List.mem_cons.mp hz with rfl | hz
      · exact h1
      · exact h2 z hz

theorem pyMaxBy_isSome {α β : Type} [LinearOrder β] (f : α → β)
    (l : List α) (h : l ≠ []) : (pyMaxBy f l).isSome = true := by
  cases l with
  | nil => exact absurd rfl h
  | cons x xs => simp [pyMaxBy]

/-! ### Sorting: permutation and sortedness of the insertion sort -/

theorem insertSorted_perm {α : Type} (le : α → α → Bool) (x : α) (l : List α) :
    List.Perm (insertSorted le x l) (x :: l) := by
  induction l with
  | nil => exact List.Perm.refl _
  | cons y ys ih =>
    by_cases h : le x y
    · rw [insertSorted, if_pos h]
    · rw [insertSorted, if_neg h]
      exact List.Perm.trans (List.Perm.cons y ih) (List.Perm.swap x y ys)

theorem insSort_perm {α : Type} (le : α → α → Bool) (l : List α) :
    List.Perm (insSort le l) l := by
  induction l with
  | nil => exact List.Perm.refl _
  | cons x xs ih =>
    exact List.Perm.trans (insertSorted_perm le x (insSort le xs))
      (List.Perm.cons x ih)

theorem insertSorted_pairwise {α : Type} (le : α → α → Bool)
    (htrans : ∀ a b c, le a b = true → le b c = true → le a c = true)
    (htotal : ∀ a b, le a b = true ∨ le b a = true) (x : α) (l : List α)
    (h : l.Pairwise (fun a b => le a b = true)) :
    (insertSorted le x l).Pairwise (fun a b => le a b = true) := by
  induction l with
  | nil => simp [insertSorted]
  | cons y ys ih =>
    obtain ⟨hy, hys⟩ := List.pairwise_cons.mp h
    by_cases hle : le x y
    · rw [insertSorted, if_pos hle]
      refine List.pairwise_cons.mpr ⟨?_, h⟩
      intro z hz
      rcases List.mem_cons.mp hz with rfl | hz
      · exact hle
      · exact htrans x y z hle (hy z hz)
    · rw [insertSorted, if_neg hle]
      have hyx : le y x = true := (htotal x y).resolve_left hle
      refine List.pairwise_cons.mpr ⟨?_, ih hys⟩
      intro z hz
      rcases List.mem_cons.mp ((insertSorted_perm le x ys).mem_iff.mp hz)
        with rfl | hz
      · exact hyx
      · exact hy z hz

theorem insSort_pairwise {α : Type} (le : α → α → Bool)
    (htrans : ∀ a b c, le a b = true → le b c = true → le a c = true)
    (htotal : ∀ a b, le a b = true ∨ le b a = true) (l : List α) :
    (insSort le l).Pairwise (fun a b => le a b = true) := by
  induction l with
  | nil => simp [insSort]
  | cons x xs ih => exact insertSorted_pairwise le htrans htotal x _ ih

/-! ### The lexicographic string order used on month keys -/

theorem lexLe_total : ∀ as bs : List Char,
    lexLe as bs = true ∨ lexLe bs as = true := by
  intro as
  induction as with
  | nil => intro bs; left; rfl
  | cons a as ih =>
    intro bs
    cases bs with
    | nil => right; rfl
    | cons b bs' =>
      rcases lt_trichotomy a b with h | h | h
      · left
        simp [lexLe, h]
      · subst h
        rcases ih bs' with h' | h'
        · left
          simp [lexLe, lt_irrefl, h']
        · right
          simp [lexLe, lt_irrefl, h']
      · right
        simp [lexLe, h]

theorem lexLe_trans : ∀ as bs cs : List Char,
    lexLe as bs = true → lexLe bs cs = true → lexLe as cs = true := by
  intro as
  induction as with
  | nil => intro bs cs _ _; rfl
  | cons a as ih =>
    intro bs cs h₁ h₂
    cases bs with
    | nil => simp [lexLe] at h₁
    | cons b bs' =>
      cases cs with
      | nil => simp [lexLe] at h₂
      | cons c cs' =>
        rcases lt_trichotomy b c with hbc | hbc | hbc
        · rcases lt_trichotomy a b with hab | hab | hab
          · simp [lexLe, lt_trans hab hbc]
          · subst hab
            simp [lexLe, hbc]
          · simp [lexLe, hab, asymm hab] at h₁
        · subst hbc
          rcases lt_trichotomy a b with hab | hab | hab
          · simp [lexLe, hab]
          · subst hab
            simp only [lexLe, lt_self_iff_false, if_false] at h₁ h₂ ⊢
            exact ih bs' cs' h₁ h₂
          · simp [lexLe, hab, asymm hab] at h₁
        · simp [lexLe, hbc, asymm hbc] at h₂

/-! ### Digit rendering: the zero-padded month key is ordered
chronologically -/

theorem dval_digit : ∀ k : Fin 10, dval (Char.ofNat (48 + k.val)) = k.val := by
  decide

theorem isDigit_digit : ∀ k : Fin 10, (Char.ofNat (48 + k.val)).isDigit = true := by
  decide

theorem digit_lt_iff : ∀ j k : Fin 10,
    (Char.ofNat (48 + j.val) < Char.ofNat (48 + k.val)) ↔ j.val < k.val := by
  decide

theorem dval_digitN {k : Nat} (hk : k < 10) :
    dval (Char.ofNat (48 + k)) = k := dval_digit ⟨k, hk⟩

theorem isDigit_digitN {k : Nat} (hk : k < 10) :
    (Char.ofNat (48 + k)).isDigit = true := isDigit_digit ⟨k, hk⟩

theorem digit_lt_iffN {j k : Nat} (hj : j < 10) (hk : k < 10) :
    (Char.ofNat (48 + j) < Char.ofNat (48 + k)) ↔ j < k :=
  digit_lt_iff ⟨j, hj⟩ ⟨k, hk⟩

theorem formatYM_data (y m : Nat) : (formatYM y m).data =
    [Char.ofNat (48 + y / 1000), Char.ofNat (48 + y % 1000 / 100),
     Char.ofNat (48 + y % 1000 % 100 / 10),
     Char.ofNat (48 + y % 1000 % 100 % 10 / 1), '-',
     Char.ofNat (48 + m / 10), Char.ofNat (48 + m % 10 / 1)] := rfl

theorem lexLe_digit_cons {j k : Nat} (hj : j < 10) (hk : k < 10)
    (as bs : List Char) :
    lexLe (Char.ofNat (48 + j) :: as) (Char.ofNat (48 + k) :: bs) =
      if j < k then true else if k < j then false else lexLe as bs := by
  have h1 := digit_lt_iffN hj hk
  have h2 := digit_lt_iffN hk hj
  simp only [lexLe]
  by_cases hjk : j < k
  · rw [if_pos (h1.mpr hjk), if_pos hjk]
  · rw [if_neg (fun hh => hjk (h1.mp hh)), if_neg hjk]
    by_cases hkj : k < j
    · rw [if_pos (h2.mpr hkj), if_pos hkj]
    · rw [if_neg (fun hh => hkj (h2.mp hh)), if_neg hkj]

theorem lexLe_dash_cons (as bs : List Char) :
    lexLe ('-' :: as) ('-' :: bs) = lexLe as bs := by
  simp [lexLe, lt_irrefl]

theorem true_eq_iff (P : Prop) (hp : P) : ((true = true) ↔ P) :=
  ⟨fun _ => hp, fun _ => rfl⟩

theorem false_eq_iff (P : Prop) (hp : ¬P) : ((false = true) ↔ P) :=
  ⟨fun h => Bool.noConfusion h, fun h => absurd h hp⟩

set_option maxHeartbeats 1000000 in
theorem lexLe_formatYM (y m y' m' : Nat) (hy : y < 10000) (hm : m < 100)
    (hy' : y' < 10000) (hm' : m' < 100) :
    lexLe (formatYM y m).data (formatYM y' m').data = true ↔
      y * 100 + m ≤ y' * 100 + m' := by
  have e1 : y / 1000 < 10 := by omega
  have e2 : y % 1000 / 100 < 10 := by omega
  have e3 : y % 1000 % 100 / 10 < 10 := by omega
  have e4 : y % 1000 % 100 % 10 / 1 < 10 := by omega
  have e5 : m / 10 < 10 := by omega
  have e6 : m % 10 / 1 < 10 := by omega
  have f1 : y' / 1000 < 10 := by omega
  have f2 : y' % 1000 / 100 < 10 := by omega
  have f3 : y' % 1000 % 100 / 10 < 10 := by omega
  have f4 : y' % 1000 % 100 % 10 / 1 < 10 := by omega
  have f5 : m' / 10 < 10 := by omega
  have f6 : m' % 10 / 1 < 10 := by omega
  have g1 : 1000 * (y / 1000) + y % 1000 = y := Nat.div_add_mod y 1000
  have g2 : 100 * (y % 1000 / 100) + y % 1000 % 100 = y % 1000 :=
    Nat.div_add_mod _ 100
  have g3 : 10 * (y % 1000 % 100 / 10) + y % 1000 % 100 % 10 = y % 1000 % 100 :=
    Nat.div_add_mod _ 10
  have g4 : y % 1000 % 100 % 10 / 1 = y % 1000 % 100 % 10 := Nat.div_one _
  have g5 : 10 * (m / 10) + m % 10 = m := Nat.div_add_mod m 10
  have g6 : m % 10 / 1 = m % 10 := Nat.div_one _
  have k1 : 1000 * (y' / 1000) + y' % 1000 = y' := Nat.div_add_mod y' 1000
  have k2 : 100 * (y' % 1000 / 100) + y' % 1000 % 100 = y' % 1000 :=
    Nat.div_add_mod _ 100
  have k3 : 10 * (y' % 1000 % 100 / 10) + y' % 1000 % 100 % 10 =
      y' % 1000 % 100 := Nat.div_add_mod _ 10
  have k4 : y' % 1000 % 100 % 10 / 1 = y' % 1000 % 100 % 10 := Nat.div_one _
  have k5 : 10 * (m' / 10) + m' % 10 = m' := Nat.div_add_mod m' 10
  have k6 : m' % 10 / 1 = m' % 10 := Nat.div_one _
  rw [formatYM_data, formatYM_data, lexLe_digit_cons e1 f1,
    lexLe_digit_cons e2 f2, lexLe_digit_cons e3 f3, lexLe_digit_cons e4 f4,
    lexLe_dash_cons, lexLe_digit_cons e5 f5, lexLe_digit_cons e6 f6]
  have hnil : lexLe [] [] = true := rfl
  rw [hnil]
  rcases Nat.lt_trichotomy (y / 1000) (y' / 1000) with h1 | h1 | h1
  · rw [if_pos h1]
    exact true_eq_iff _ (by omega)
  case inr.inr =>
    rw [if_neg (by omega), if_pos h1]
    exact false_eq_iff _ (by omega)
  rw [if_neg (by omega), if_neg (by omega)]
  rcases Nat.lt_trichotomy (y % 1000 / 100) (y' % 1000 / 100) with h2 | h2 | h2
  · rw [if_pos h2]
    exact true_eq_iff _ (by omega)
  case inr.inr =>
    rw [if_neg (by omega), if_pos h2]
    exact false_eq_iff _ (by omega)
  rw [if_neg (by omega), if_neg (by omega)]
  rcases Nat.lt_trichotomy (y % 1000 % 100 / 10) (y' % 1000 % 100 / 10)
    with h3 | h3 | h3
  · rw [if_pos h3]
    exact true_eq_iff _ (by omega)
  case inr.inr =>
    rw [if_neg (by omega), if_pos h3]
    exact false_eq_iff _ (by omega)
  rw [if_neg (by omega), if_neg (by omega)]
  rcases Nat.lt_trichotomy (y % 1000 % 100 % 10 / 1) (y' % 1000 % 100 % 10 / 1)
    with h4 | h4 | h4
  · rw [if_pos h4]
    exact true_eq_iff _ (by omega)
  case inr.inr =>
    rw [if_neg (by omega), if_pos h4]
    exact false_eq_iff _ (by omega)
  rw [if_neg (by omega), if_neg (by omega)]
  rcases Nat.lt_trichotomy (m / 10) (m' / 10) with h5 | h5 | h5
  · rw [if_pos h5]
    exact true_eq_iff _ (by omega)
  case inr.inr =>
    rw [if_neg (by omega), if_pos h5]
    exact false_eq_iff _ (by omega)
  rw [if_neg (by omega), if_neg (by omega)]
  rcases Nat.lt_trichotomy (m % 10 / 1) (m' % 10 / 1) with h6 | h6 | h6
  · rw [if_pos h6]
    exact true_eq_iff _ (by omega)
  case inr.inr =>
    rw [if_neg (by omega), if_pos h6]
    exact false_eq_iff _ (by omega)
  rw [if_neg (by omega), if_neg (by omega)]
  exact true_eq_iff _ (by omega)

theorem ymIdx_formatYM (y m : Nat) (hy : y < 10000) (hm : m < 100) :
    ymIdx (formatYM y m) = some (y * 100 + m) := by
  have e1 : y / 1000 < 10 := by omega
  have e2 : y % 1000 / 100 < 10 := by omega
  have e3 : y % 1000 % 100 / 10 < 10 := by omega
  have e4 : y % 1000 % 100 % 10 / 1 < 10 := by omega
  have e5 : m / 10 < 10 := by omega
  have e6 : m % 10 / 1 < 10 := by omega
  have g1 : 1000 * (y / 1000) + y % 1000 = y := Nat.div_add_mod y 1000
  have g2 : 100 * (y % 1000 / 100) + y % 1000 % 100 = y % 1000 :=
    Nat.div_add_mod _ 100
  have g3 : 10 * (y % 1000 % 100 / 10) + y % 1000 % 100 % 10 = y % 1000 % 100 :=
    Nat.div_add_mod _ 10
  have g4 : y % 1000 % 100 % 10 / 1 = y % 1000 % 100 % 10 := Nat.div_one _
  have g5 : 10 * (m / 10) + m % 10 = m := Nat.div_add_mod m 10
  have g6 : m % 10 / 1 = m % 10 := Nat.div_one _
  unfold ymIdx
  rw [formatYM_data]
  simp only [isDigit_digitN e1, isDigit_digitN e2, isDigit_digitN e3,
    isDigit_digitN e4, isDigit_digitN e5, isDigit_digitN e6,
    dval_digitN e1, dval_digitN e2, dval_digitN e3, dval_digitN e4,
    dval_digitN e5, dval_digitN e6, Bool.and_self, and_true, true_and,
    if_true, eq_self_iff_true, Option.some.injEq]
  omega

/-! ### The structural invariant of reachable states -/

theorem wf_initState : WF initState :=
  ⟨by simp [initState], by simp [initState], by simp [initState],
   by simp [initState]⟩

theorem mkTimestamp_bounds {y mo d h mi se : Nat} {t : Timestamp}
    (hk : mkTimestamp y mo d h mi se = some t) :
    1 ≤ t.year ∧ t.year ≤ 9999 ∧ 1 ≤ t.month ∧ t.month ≤ 12 := by
  unfold mkTimestamp at hk
  split at hk
  · injection hk with hk
    subst hk
    rename_i hc
    exact ⟨hc.1, hc.2.1, hc.2.2.1, hc.2.2.2.1⟩
  · exact absurd hk (by simp)

theorem parseIso_bounds {s : String} {t : Timestamp}
    (h : parseIso s = some t) :
    1 ≤ t.year ∧ t.year ≤ 9999 ∧ 1 ≤ t.month ∧ t.month ≤ 12 := by
  unfold parseIso at h
  split at h
  · split at h
    · split at h
      · exact mkTimestamp_bounds h
      · exact absurd h (by simp)
    · exact absurd h (by simp)
  · exact absurd h (by simp)

theorem parseLine_timestamp_bounds {line : String} {s : Sale}
    (h : parseLine line = some s) :
    1 ≤ s.timestamp.year ∧ s.timestamp.year ≤ 9999 ∧
      1 ≤ s.timestamp.month ∧ s.timestamp.month ≤ 12 := by
  unfold parseLine parseRecord at h
  split at h
  · rename_i staff ts prods amt tail heq
    cases hi : parseIso ⟨ts⟩ with
    | none => rw [hi] at h; exact absurd h (by simp)
    | some t =>
      rw [hi] at h
      cases hf : formatProducts prods with
      | none => rw [hf] at h; exact absurd h (by simp)
      | some ps =>
        rw [hf] at h
        simp only [Option.bind, Option.map] at h
        injection h with h
        subst h
        exact parseIso_bounds hi
  · exact absurd h (by simp)

theorem wf_update {st st' : AnalyserState} {s : Sale}
    (hb : 1 ≤ s.timestamp.year ∧ s.timestamp.year ≤ 9999 ∧
      1 ≤ s.timestamp.month ∧ s.timestamp.month ≤ 12)
    (h : updateMetrics st s = some st') (hwf : WF st) : WF st' := by
  cases hq : parsedProducts s with
  | none => simp [updateMetrics, hq, Option.bind] at h
  | some qs =>
    cases ha : pyFloat s.amount with
    | none => simp [updateMetrics, hq, ha, Option.bind] at h
    | some amt =>
      rw [updateMetrics_eq st s qs amt hq ha] at h
      injection h with h
      subst h
      refine ⟨?_, ?_, ?_, ?_⟩
      · intro p hp
        rcases mem_setk hp with hp | hp
        · refine ⟨s.timestamp.year, s.timestamp.month, by omega, hb.2.2.1,
            hb.2.2.2, ?_⟩
          rw [hp]
          rfl
        · exact hwf.mssKeys p hp
      · exact nodup_keys_setk _ _ _ hwf.mssNodup
      · intro p hp
        rcases mem_setk hp with hp | hp
        · rw [hp]
          exact setk_ne_nil _ _ _
        · exact hwf.mssInnerNe p hp
      · intro p hp
        rcases mem_setk hp with hp | hp
        · rw [hp]
          simp
        · exact hwf.hvNe p hp

theorem reach_wf {st : AnalyserState} (h : Reach st) : WF st := by
  obtain ⟨lines, hl⟩ := h
  suffices H : ∀ (ls : List String) (st0 stf : AnalyserState), WF st0 →
      foldO (fun st line => (parseLine line).bind (updateMetrics st)) st0 ls =
        some stf → WF stf by exact H lines initState st wf_initState hl
  intro ls
  induction ls with
  | nil =>
    intro st0 stf h0 hf
    simp only [foldO] at hf
    injection hf with hf
    subst hf
    exact h0
  | cons x xs ih =>
    intro st0 stf h0 hf
    simp only [foldO] at hf
    cases hp : parseLine x with
    | none => rw [hp] at hf; simp [Option.bind] at hf
    | some sl =>
      rw [hp] at hf
      simp only [Option.bind] at hf
      cases hu : updateMetrics st0 sl with
      | none => rw [hu] at hf; simp [Option.bind] at hf
      | some st1 =>
        rw [hu] at hf
        simp only [Option.bind] at hf
        exact ih st1 stf
          (wf_update (parseLine_timestamp_bounds hp) hu h0) hf

/-! ### Claim theorem: the monthly top-staff listing -/

theorem forall₂_mem_right {α β : Type} {R : α → β → Prop} :
    ∀ {l : List α} {l' : List β}, List.Forall₂ R l l' →
      ∀ y ∈ l', ∃ x, x ∈ l ∧ R x y := by
  intro l l' h
  induction h with
  | nil => simp
  | cons hR _ ih =>
    intro y hy
    rcases List.mem_cons.mp hy with rfl | hy
    · exact ⟨_, by simp, hR⟩
    · obtain ⟨x, hx, hR'⟩ := ih y hy
      exact ⟨x, by simp [hx], hR'⟩

theorem monthlyTopStaff_keys {mss : List (String × List (String × Int))}
    {out : List (String × (String × Int))}
    (h : monthlyTopStaff mss = some out) :
    out.map Prod.fst = mss.map Prod.fst := by
  unfold monthlyTopStaff at h
  have hf := mapO_forall₂ h
  clear h
  induction hf with
  | nil => rfl
  | cons hR _ ih =>
    rename_i p e l₁ l₂ hrest
    cases hmx : pyMaxBy Prod.snd p.2 with
    | none => rw [hmx] at hR; simp at hR
    | some t =>
      rw [hmx] at hR
      simp only [Option.map] at hR
      injection hR with hR
      simp only [List.map_cons, ih, ← hR]

theorem getv_of_mem_nodup {K V : Type} [DecidableEq K] :
    ∀ {m : List (K × V)}, (m.map Prod.fst).Nodup → ∀ {p : K × V}, p ∈ m →
      getv m p.1 = some p.2 := by
  intro m
  induction m with
  | nil => intro _ p hp; simp at hp
  | cons q rest ih =>
    intro hn p hp
    obtain ⟨hq, hrest⟩ := List.pairwise_cons.mp hn
    rcases List.mem_cons.mp hp with rfl | hp
    · simp [getv]
    · have hne : p.1 ≠ q.1 := by
        intro hh
        exact hq p.1 (List.mem_map_of_mem Prod.fst hp) hh.symm
      simp only [getv, if_neg hne]
      exact ih hrest hp

/-- C5: on every state reached by the ingestion loop, the monthly
top-staff computation succeeds, its sorted output covers exactly the
year-month keys present in `monthly_staff_sales`, every listed entry is
a staff entry of that month attaining the maximum accumulated volume,
every listed key decodes as a genuine `"YYYY-MM"` month, and the listing
is strictly increasing in the chronological index `year * 100 + month`,
so months of different years are never collided. -/
theorem monthly_top_staff_correct (st : AnalyserState) (h : Reach st) :
    ∃ out, monthlyTopStaff st.monthly_staff_sales = some out ∧
      List.Perm ((sortByMonth out).map Prod.fst)
        (st.monthly_staff_sales.map Prod.fst) ∧
      (∀ e ∈ sortByMonth out, ∃ inner,
        getv st.monthly_staff_sales e.1 = some inner ∧ e.2 ∈ inner ∧
        ∀ q ∈ inner, q.2 ≤ e.2.2) ∧
      (∀ e ∈ sortByMonth out, (ymIdx e.1).isSome = true) ∧
      List.Pairwise (fun a b => (ymIdx a.1).getD 0 < (ymIdx b.1).getD 0)
        (sortByMonth out) := by
  have hwf := reach_wf h
  have hex : (monthlyTopStaff st.monthly_staff_sales).isSome = true := by
    unfold monthlyTopStaff
    rw [mapO_isSome]
    intro p hp
    have hs := pyMaxBy_isSome Prod.snd p.2 (hwf.mssInnerNe p hp)
    cases hm : pyMaxBy Prod.snd p.2 with
    | none => rw [hm] at hs; simp at hs
    | some t => simp [hm]
  obtain ⟨out, hout⟩ := Option.isSome_iff_exists.mp hex
  have hkeys : out.map Prod.fst = st.monthly_staff_sales.map Prod.fst :=
    monthlyTopStaff_keys hout
  have hperm : List.Perm (sortByMonth out) out := insSort_perm _ out
  have hYM : ∀ e ∈ sortByMonth out, ∃ y mo, y < 10000 ∧ 1 ≤ mo ∧ mo ≤ 12 ∧
      e.1 = formatYM y mo := by
    intro e he
    have he' : e ∈ out := hperm.mem_iff.mp he
    have hk : e.1 ∈ st.monthly_staff_sales.map Prod.fst := by
      rw [← hkeys]
      exact List.mem_map_of_mem Prod.fst he'
    obtain ⟨p, hp, hpe⟩ := List.mem_map.mp hk
    obtain ⟨y, mo, hy, hm1, hm2, hkey⟩ := hwf.mssKeys p hp
    exact ⟨y, mo, hy, hm1, hm2, by rw [← hpe, hkey]⟩
  refine ⟨out, hout, ?_, ?_, ?_, ?_⟩
  · exact hkeys ▸ hperm.map Prod.fst
  · intro e he
    have he' : e ∈ out := hperm.mem_iff.mp he
    have hf := mapO_forall₂ (show mapO _ st.monthly_staff_sales = some out
      from hout)
    obtain ⟨p, hp, hR⟩ := forall₂_mem_right hf e he'
    cases hmx : pyMaxBy Prod.snd p.2 with
    | none => rw [hmx] at hR; simp at hR
    | some t =>
      rw [hmx] at hR
      simp only [Option.map] at hR
      injection hR with hR
      obtain ⟨htmem, htle⟩ := pyMaxBy_spec Prod.snd p.2 t hmx
      subst hR
      exact ⟨p.2, getv_of_mem_nodup hwf.mssNodup hp, htmem, htle⟩
  · intro e he
    obtain ⟨y, mo, hy, hm1, hm2, hkey⟩ := hYM e he
    rw [hkey, ymIdx_formatYM y mo hy (by omega)]
    rfl
  · have hsorted : (sortByMonth out).Pairwise
        (fun a b => lexLe a.1.data b.1.data = true) :=
      insSort_pairwise _ (fun a b c => lexLe_trans a.1.data b.1.data c.1.data)
        (fun a b => lexLe_total a.1.data b.1.data) out
    have hnodup : ((sortByMonth out).map Prod.fst).Nodup := by
      have h1 : (out.map Prod.fst).Nodup := hkeys ▸ hwf.mssNodup
      exact ((hperm.map Prod.fst).nodup_iff).mpr h1
    have hne : (sortByMonth out).Pairwise (fun a b => a.1 ≠ b.1) :=
      List.pairwise_map.mp hnodup
    refine (hsorted.and hne).imp_of_mem ?_
    intro a b ha hb hab
    obtain ⟨ya, ma, hya, hma1, hma2, hka⟩ := hYM a ha
    obtain ⟨yb, mb, hyb, hmb1, hmb2, hkb⟩ := hYM b hb
    obtain ⟨hab1, hab2⟩ := hab
    rw [hka, hkb] at hab1
    rw [hka, hkb, ymIdx_formatYM ya ma hya (by omega),
      ymIdx_formatYM yb mb hyb (by omega)]
    simp only [Option.getD_some]
    have hle := (lexLe_formatYM ya ma yb mb hya (by omega) hyb (by omega)).mp hab1
    rcases eq_or_ne ya yb with hyy | hyy
    · subst hyy
      have hmm : ma ≠ mb := by
        intro hh
        exact hab2 (by rw [hka, hkb, hh])
      omega
    · omega

unseal Rat.add Rat.mul Rat.inv in
/-- Witness for the monthly top-staff theorem at the concrete scenario
state. -/
theorem monthly_top_staff_correct_witness :
    ∃ out, monthlyTopStaff exState.monthly_staff_sales = some out ∧
      List.Perm ((sortByMonth out).map Prod.fst)
        (exState.monthly_staff_sales.map Prod.fst) ∧
      (∀ e ∈ sortByMonth out, ∃ inner,
        getv exState.monthly_staff_sales e.1 = some inner ∧ e.2 ∈ inner ∧
        ∀ q ∈ inner, q.2 ≤ e.2.2) ∧
      (∀ e ∈ sortByMonth out, (ymIdx e.1).isSome = true) ∧
      List.Pairwise (fun a b => (ymIdx a.1).getD 0 < (ymIdx b.1).getD 0)
        (sortByMonth out) :=
  monthly_top_staff_correct exState
    ⟨["4,2025-01-01T16:58:53,[726107:5|553776:5],2114.235",
      "7,2025-01-01T09:10:00,[726107:3],500.00"], by decide⟩

/-! ### Claim theorem: the peak hour -/

/-- C6: on every state reached by the ingestion loop, every hour present
in `hourly_volumes` has a non-empty observation list, so the per-hour
average (sum divided by count) never divides by zero; the averaging loop
succeeds, and the reported peak hour is an hour of the map paired with
its average, which is the maximum of all the per-hour averages. -/
theorem peak_hour_correct (st : AnalyserState) (h : Reach st) :
    (∀ p ∈ st.hourly_volumes, p.2 ≠ []) ∧
    ∃ avgs, avgHourly st.hourly_volumes = some avgs ∧
      avgs = st.hourly_volumes.map
        (fun p => (p.1, ((p.2.sum : ℚ) / (p.2.length : ℚ)))) ∧
      (st.hourly_volumes ≠ [] → ∃ hA, pyMaxBy Prod.snd avgs = some hA ∧
        (∃ p, p ∈ st.hourly_volumes ∧ p.2 ≠ [] ∧
          hA = (p.1, ((p.2.sum : ℚ) / (p.2.length : ℚ)))) ∧
        ∀ p ∈ st.hourly_volumes,
          ((p.2.sum : ℚ) / (p.2.length : ℚ)) ≤ hA.2) := by
  have hwf := reach_wf h
  have hne := hwf.hvNe
  refine ⟨hne, ?_⟩
  have havg : avgHourly st.hourly_volumes = some (st.hourly_volumes.map
      (fun p => (p.1, ((p.2.sum : ℚ) / (p.2.length : ℚ))))) := by
    unfold avgHourly
    refine mapO_eq_some_of_pointwise _ _ _ ?_
    intro p hp
    have hlen : p.2.length ≠ 0 := by
      simpa [List.length_eq_zero] using hne p hp
    rw [if_neg hlen]
  refine ⟨_, havg, rfl, ?_⟩
  intro hne'
  have hmapne : st.hourly_volumes.map
      (fun p => (p.1, ((p.2.sum : ℚ) / (p.2.length : ℚ)))) ≠ [] := by
    simpa using hne'
  have hsome := pyMaxBy_isSome Prod.snd _ hmapne
  obtain ⟨hA, hAeq⟩ := Option.isSome_iff_exists.mp hsome
  obtain ⟨hmem, hle⟩ := pyMaxBy_spec Prod.snd _ hA hAeq
  obtain ⟨p, hp, hpe⟩ := List.mem_map.mp hmem
  refine ⟨hA, hAeq, ⟨p, hp, hne p hp, hpe.symm⟩, ?_⟩
  intro q hq
  exact hle _ (List.mem_map_of_mem _ hq)

unseal Rat.add Rat.mul Rat.inv in
/-- Witness for the peak-hour theorem at the concrete scenario state. -/
theorem peak_hour_correct_witness :
    (∀ p ∈ exState.hourly_volumes, p.2 ≠ []) ∧
    ∃ avgs, avgHourly exState.hourly_volumes = some avgs ∧
      avgs = exState.hourly_volumes.map
        (fun p => (p.1, ((p.2.sum : ℚ) / (p.2.length : ℚ)))) ∧
      (exState.hourly_volumes ≠ [] → ∃ hA, pyMaxBy Prod.snd avgs = some hA ∧
        (∃ p, p ∈ exState.hourly_volumes ∧ p.2 ≠ [] ∧
          hA = (p.1, ((p.2.sum : ℚ) / (p.2.length : ℚ)))) ∧
        ∀ p ∈ exState.hourly_volumes,
          ((p.2.sum : ℚ) / (p.2.length : ℚ)) ≤ hA.2) :=
  peak_hour_correct exState
    ⟨["4,2025-01-01T16:58:53,[726107:5|553776:5],2114.235",
      "7,2025-01-01T09:10:00,[726107:3],500.00"], by decide⟩

end MonieShop
